import Mathlib

/-!
# Verification of the bor mail client's mu-integration core

Shallow embedding of the message-state layer of the `bor` terminal email
client (`src/bor/mu.py` and `src/bor/tabs/compose.py`) together with proofs
of the specification's testable properties.

Python strings are modelled as `List Char` (with `String` wrappers where
convenient), Python `set` of flag characters as `Finset Char`, the maildir
filesystem as an explicit state record, and Python exceptions as
`Except PyErr`.  External subprocess calls (`mu ...`) are modelled by an
explicit outcome value supplied by the environment, and the external
`json.loads` / `datetime.fromisoformat` library functions are taken as
function parameters, since they are not part of this repository.
-/

namespace Bor

/-- Python exception values that the embedded code can raise. -/
inductive PyErr where
  | runtimeError (msg : String)
  | typeError
  | attributeError
  | valueError
  | osError
  deriving DecidableEq, Repr

/-! ## Python string primitives (on `List Char`) -/

/-- The whitespace characters stripped by `str.strip()` and matched by the
regex class `\s`: the characters for which Python's `str.isspace` holds. -/
def isPySpace (c : Char) : Bool :=
  c = ' ' || c = '\t' || c = '\n' || c = '\r' || c = '\x0b' || c = '\x0c' ||
  c = '\x1c' || c = '\x1d' || c = '\x1e' || c = '\x1f' || c = '\x85' ||
  c = '\xa0' || c = '\u1680' || ('\u2000' ≤ c && c ≤ '\u200a') ||
  c = '\u2028' || c = '\u2029' || c = '\u202f' || c = '\u205f' || c = '\u3000'

/-- `str.strip()`: drop whitespace from both ends. -/
def pyStrip (l : List Char) : List Char :=
  ((l.dropWhile isPySpace).reverse.dropWhile isPySpace).reverse

/-- `str.strip()` on `String`. -/
def pyStripS (s : String) : String :=
  ⟨pyStrip s.data⟩

/-! ## Maildir flag-state machine (`MuInterface._set_flag`, mu.py 702-760)

`_set_flag` parses the filename into `(base, flags)` around the *last*
occurrence of the separator `":2,"` (`str.rsplit(":2,", 1)`), applies the
delta ops in order to the flag set, re-serialises the flags sorted, and
switches the directory from the `new` tier to the `cur` tier. -/

/-- Split a delta string into ordered `(op, char)` pairs, dropping an odd
trailing character, as the loop `for i in range(0, len(flag_delta), 2)`
with the guard `i + 1 < len(flag_delta)` does. -/
def deltaPairs : List Char → List (Char × Char)
  | op :: c :: rest => (op, c) :: deltaPairs rest
  | _ => []

/-- Apply one `(op, char)` pair to the flag set: `+` adds, `-` discards,
any other op character leaves the set unchanged. -/
def applyOp (s : Finset Char) (p : Char × Char) : Finset Char :=
  if p.1 = '+' then insert p.2 s
  else if p.1 = '-' then s.erase p.2
  else s

/-- Apply a whole delta (already split into pairs) to a flag set. -/
def applyDelta (ops : List (Char × Char)) (s : Finset Char) : Finset Char :=
  ops.foldl applyOp s

/-- `name.rsplit(":2,", 1)`: find the *rightmost* occurrence of `":2,"`
and split around it; `none` when the separator does not occur. -/
def rsplitFlagSep : List Char → Option (List Char × List Char)
  | [] => none
  | c :: rest =>
    match rsplitFlagSep rest with
    | some (pre, post) => some (c :: pre, post)
    | none =>
      match rest with
      | '2' :: ',' :: post => if c = ':' then some ([], post) else none
      | _ => none

/-- Parse a maildir filename into `(base, flags)`:
`base, flags = name.rsplit(":2,", 1)` when the separator occurs, else
`(name, "")`. -/
def parseMaildirName (name : List Char) : List Char × List Char :=
  match rsplitFlagSep name with
  | some (base, flags) => (base, flags)
  | none => (name, [])

/-- Serialise a flag set: `"".join(sorted(current_flags))`. -/
def sortFlags (s : Finset Char) : List Char :=
  s.sort (· ≤ ·)

/-- The new filename computed by `_set_flag`:
`f"{base}:2,{new_flags}"` with `new_flags` the sorted updated flag set. -/
def setFlagName (name : List Char) (delta : List Char) : List Char :=
  let (base, flags) := parseMaildirName name
  let current := flags.toFinset
  let updated := applyDelta (deltaPairs delta) current
  base ++ ':' :: '2' :: ',' :: sortFlags updated

/-- The new directory computed by `_set_flag`: a file in a `new` tier is
moved to the sibling `cur` tier, otherwise the directory is unchanged.
Directories are modelled as their path components. -/
def setFlagDir (dir : List String) : List String :=
  if dir.getLastD "" = "new" then dir.dropLast ++ ["cur"] else dir

/-- The full pure effect of `_set_flag` on the file's location:
new directory and new filename (the subsequent rename and the two
`mu remove`/`mu add` calls carry this value to the filesystem/index). -/
def setFlagMove (dir : List String) (name : List Char) (delta : List Char) :
    List String × List Char :=
  (setFlagDir dir, setFlagName name delta)

/-! ### Flag-delta idempotence lemmas -/

/-- The membership effect of a single `(op, char)` pair on a given
character, when it touches that character at all. -/
def opAssign (p : Char × Char) (c : Char) : Option Bool :=
  if p.2 = c then
    if p.1 = '+' then some true
    else if p.1 = '-' then some false
    else none
  else none

/-- The last assignment a delta makes to a given character
(the later pairs in the list win). -/
def lastAssign : List (Char × Char) → Char → Option Bool
  | [], _ => none
  | p :: rest, c =>
    match lastAssign rest c with
    | some b => some b
    | none => opAssign p c

theorem mem_applyOp (s : Finset Char) (p : Char × Char) (c : Char) :
    (c ∈ applyOp s p) ↔ (match opAssign p c with
      | some b => b = true
      | none => c ∈ s) := by
  unfold applyOp opAssign
  rcases p with ⟨op, ch⟩
  by_cases h2 : ch = c <;> by_cases hp : op = '+' <;> by_cases hm : op = '-' <;>
    simp_all [Finset.mem_insert, Finset.mem_erase, eq_comm]

theorem mem_applyDelta (ops : List (Char × Char)) (s : Finset Char) (c : Char) :
    (c ∈ applyDelta ops s) ↔ (match lastAssign ops c with
      | some b => b = true
      | none => c ∈ s) := by
  induction ops generalizing s with
  | nil => simp [applyDelta, lastAssign]
  | cons p rest ih =>
    show (c ∈ applyDelta rest (applyOp s p)) ↔ _
    rw [ih, show lastAssign (p :: rest) c =
      (match lastAssign rest c with
        | some b => some b
        | none => opAssign p c) from rfl]
    cases h1 : lastAssign rest c with
    | some b => rfl
    | none => rw [mem_applyOp]

/-- Applying the same delta twice to a flag set equals applying it once. -/
theorem applyDelta_idem (ops : List (Char × Char)) (s : Finset Char) :
    applyDelta ops (applyDelta ops s) = applyDelta ops s := by
  ext c
  rw [mem_applyDelta, mem_applyDelta]
  cases lastAssign ops c <;> rfl

theorem rsplitFlagSep_cons (c : Char) (rest : List Char) :
    rsplitFlagSep (c :: rest) =
      (match rsplitFlagSep rest with
        | some (pre, post) => some (c :: pre, post)
        | none =>
          match rest with
          | '2' :: ',' :: post => if c = ':' then some ([], post) else none
          | _ => none) := rfl

/-- A strictly sorted character run cannot contain the separator `":2,"`,
because `'2'` (code 50) is not below `','` (code 44). -/
theorem rsplitFlagSep_eq_none_of_sorted (F : List Char)
    (h : List.Sorted (· < ·) F) : rsplitFlagSep F = none := by
  induction F with
  | nil => rfl
  | cons c rest ih =>
    rw [rsplitFlagSep_cons, ih h.of_cons]
    show (match rest with
      | '2' :: ',' :: post => if c = ':' then some ([], post) else none
      | _ => none) = none
    split
    · exact absurd (List.rel_of_sorted_cons h.of_cons ',' (by simp)) (by decide)
    · rfl

/-- `rsplit(":2,", 1)` of `base ++ ":2," ++ F` recovers `(base, F)` when
`F` itself contains no separator. -/
theorem rsplitFlagSep_append (base F : List Char)
    (hF : rsplitFlagSep F = none) :
    rsplitFlagSep (base ++ ':' :: '2' :: ',' :: F) = some (base, F) := by
  induction base with
  | nil =>
    have h1 : rsplitFlagSep (',' :: F) = none := by
      rw [rsplitFlagSep_cons, hF]
      show (match F with
        | '2' :: ',' :: post => if (',' : Char) = ':' then some ([], post) else none
        | _ => none) = none
      split
      · rw [if_neg (by decide)]
      · rfl
    have h2 : rsplitFlagSep ('2' :: ',' :: F) = none := by
      rw [rsplitFlagSep_cons, h1]
      rfl
    show rsplitFlagSep (':' :: '2' :: ',' :: F) = some ([], F)
    rw [rsplitFlagSep_cons, h2]
    rfl
  | cons b base ih =>
    show rsplitFlagSep (b :: (base ++ ':' :: '2' :: ',' :: F)) = _
    rw [rsplitFlagSep_cons, ih]

/-- `parseMaildirName` inverts the name built by `setFlagName`. -/
theorem parseMaildirName_built (base : List Char) (s : Finset Char) :
    parseMaildirName (base ++ ':' :: '2' :: ',' :: sortFlags s) =
      (base, sortFlags s) := by
  have hs : List.Sorted (· < ·) (sortFlags s) := Finset.sort_sorted_lt s
  unfold parseMaildirName
  rw [rsplitFlagSep_append base _ (rsplitFlagSep_eq_none_of_sorted _ hs)]

theorem toFinset_sortFlags (s : Finset Char) : (sortFlags s).toFinset = s :=
  Finset.sort_toFinset _ s

theorem setFlagDir_idem (dir : List String) :
    setFlagDir (setFlagDir dir) = setFlagDir dir := by
  unfold setFlagDir
  by_cases h : dir.getLastD "" = "new"
  · rw [if_pos h]
    have : (dir.dropLast ++ ["cur"]).getLastD "" = "cur" := by
      rw [List.getLastD_concat]
    rw [if_neg (by rw [this]; decide)]
  · rw [if_neg h, if_neg h]

theorem setFlagMove_def (dir : List String) (name delta : List Char) :
    setFlagMove dir name delta = (setFlagDir dir, setFlagName name delta) := rfl

theorem setFlagName_eq (name delta : List Char) (base flags : List Char)
    (hp : parseMaildirName name = (base, flags)) :
    setFlagName name delta =
      base ++ ':' :: '2' :: ',' ::
        sortFlags (applyDelta (deltaPairs delta) flags.toFinset) := by
  unfold setFlagName
  rw [hp]

/-- Applying the same delta a second time reproduces the same filename. -/
theorem setFlagName_idem (name delta : List Char) :
    setFlagName (setFlagName name delta) delta = setFlagName name delta := by
  rcases hp : parseMaildirName name with ⟨base, flags⟩
  rw [setFlagName_eq name delta base flags hp]
  rw [setFlagName_eq _ delta base
    (sortFlags (applyDelta (deltaPairs delta) flags.toFinset))
    (parseMaildirName_built base _)]
  rw [toFinset_sortFlags, applyDelta_idem]

/-- C8. Applying the same flag delta twice to a maildir file yields the
same flag set (and in fact the same directory and filename, a rename to
itself) as applying it once; the filename written by `_set_flag` carries
the flag set serialised in sorted order, and that flag set is exactly the
delta applied to the old name's flag set. -/
theorem setFlag_apply_twice (dir : List String) (name delta : List Char) :
    setFlagMove (setFlagMove dir name delta).1 (setFlagMove dir name delta).2 delta
        = setFlagMove dir name delta ∧
    List.Sorted (· < ·) (parseMaildirName (setFlagMove dir name delta).2).2 ∧
    (parseMaildirName (setFlagMove dir name delta).2).2.toFinset
        = applyDelta (deltaPairs delta) (parseMaildirName name).2.toFinset := by
  rcases hp : parseMaildirName name with ⟨base, flags⟩
  have hname := setFlagName_eq name delta base flags hp
  have hparsed : parseMaildirName (setFlagName name delta) =
      (base, sortFlags (applyDelta (deltaPairs delta) flags.toFinset)) := by
    rw [hname]
    exact parseMaildirName_built base _
  refine ⟨?_, ?_, ?_⟩
  · exact Prod.ext (setFlagDir_idem dir) (setFlagName_idem name delta)
  · rw [setFlagMove_def]
    show List.Sorted (· < ·) (parseMaildirName (setFlagName name delta)).2
    rw [hparsed]
    exact Finset.sort_sorted_lt _
  · show (parseMaildirName (setFlagName name delta)).2.toFinset = _
    rw [hparsed]
    exact toFinset_sortFlags _

/-! ## Reply threading headers (`ComposeWidget._compose_references`,
compose.py 1083-1110)

The method returns `""` when `reply_to` is `None` or has a falsy `msgid`;
otherwise it walks the parent's `references`, stripping each entry and
keeping the first occurrence of each non-empty stripped entry, then
appends the stripped parent msgid when it is new, and joins with spaces.
The `reply_to is None` early return is the same `""` as the empty-msgid
case and is not modelled separately. -/

/-- The `for ref in reply_to.references or []` loop: `chain` and `seen`
accumulate exactly as the Python list and set do. -/
def composeReferencesLoop (seen chain : List String) :
    List String → List String × List String
  | [] => (chain, seen)
  | r :: rest =>
    if pyStripS r ≠ "" ∧ pyStripS r ∉ seen then
      composeReferencesLoop (pyStripS r :: seen) (chain ++ [pyStripS r]) rest
    else composeReferencesLoop seen chain rest

/-- `ComposeWidget._compose_references` on the (string-typed) `msgid` and
`references` fields of the parent message. -/
def composeReferences (references : List String) (msgid : String) : String :=
  if msgid = "" then ""
  else
    let res := composeReferencesLoop [] [] references
    let parent := pyStripS msgid
    String.intercalate " "
      (if parent ≠ "" ∧ parent ∉ res.2 then res.1 ++ [parent] else res.1)

/-- Specification-side first-occurrence deduplication (inner worker). -/
def dedupFirstAux (seen : List String) : List String → List String
  | [] => []
  | x :: xs =>
    if x ∈ seen then dedupFirstAux seen xs else x :: dedupFirstAux (x :: seen) xs

/-- Specification-side first-occurrence deduplication. -/
def dedupFirst (l : List String) : List String := dedupFirstAux [] l

/-- Specification-side reference normalisation: strip each entry and drop
the ones that strip to empty. -/
def normRefs : List String → List String
  | [] => []
  | r :: rest =>
    if pyStripS r ≠ "" then pyStripS r :: normRefs rest else normRefs rest

/-- The claim C2-style literal reading of the spec sentence for
`compose_references`: the raw reference chain deduplicated, followed by
the raw message-id appended when absent, space-joined. -/
def specComposeReferences (references : List String) (msgid : String) : String :=
  let chain := dedupFirst references
  String.intercalate " " (if msgid ∈ chain then chain else chain ++ [msgid])

theorem composeReferencesLoop_spec (rs : List String) (seen chain : List String) :
    composeReferencesLoop seen chain rs =
      (chain ++ dedupFirstAux seen (normRefs rs),
       (dedupFirstAux seen (normRefs rs)).reverse ++ seen) := by
  induction rs generalizing seen chain with
  | nil => simp [composeReferencesLoop, dedupFirstAux, normRefs]
  | cons r rest ih =>
    show (if pyStripS r ≠ "" ∧ pyStripS r ∉ seen then
            composeReferencesLoop (pyStripS r :: seen) (chain ++ [pyStripS r]) rest
          else composeReferencesLoop seen chain rest) = _
    by_cases hc : pyStripS r = ""
    · rw [if_neg (by simp [hc]), ih]
      simp [normRefs, hc]
    · by_cases hs : pyStripS r ∈ seen
      · rw [if_neg (by simp [hs]), ih]
        have hd : dedupFirstAux seen (normRefs (r :: rest)) =
            dedupFirstAux seen (normRefs rest) := by
          simp [normRefs, hc, dedupFirstAux, hs]
        rw [hd]
      · rw [if_pos ⟨hc, hs⟩, ih]
        have hd : dedupFirstAux seen (normRefs (r :: rest)) =
            pyStripS r :: dedupFirstAux (pyStripS r :: seen) (normRefs rest) := by
          simp [normRefs, hc, dedupFirstAux, hs]
        rw [hd]
        simp [List.append_assoc, List.reverse_cons]

/-- C7 (amended): for every parent whose message-id is non-empty after
whitespace-stripping, `_compose_references` returns the stripped
references with empty entries dropped, deduplicated preserving first
occurrences, followed by the stripped message-id appended exactly once if
not already present, space-joined. -/
theorem composeReferences_spec (refs : List String) (msgid : String)
    (h : pyStripS msgid ≠ "") :
    composeReferences refs msgid =
      String.intercalate " "
        (dedupFirst (normRefs refs) ++
          (if pyStripS msgid ∈ dedupFirst (normRefs refs) then []
           else [pyStripS msgid])) := by
  have hmsg : msgid ≠ "" := by
    intro he
    apply h
    rw [he]
    rfl
  unfold composeReferences
  rw [if_neg hmsg]
  show String.intercalate " "
      (if pyStripS msgid ≠ "" ∧
          pyStripS msgid ∉ (composeReferencesLoop [] [] refs).2 then
        (composeReferencesLoop [] [] refs).1 ++ [pyStripS msgid]
      else (composeReferencesLoop [] [] refs).1) = _
  rw [composeReferencesLoop_spec]
  by_cases hm : pyStripS msgid ∈ dedupFirst (normRefs refs)
  · rw [if_neg (by simp [dedupFirst] at hm ⊢; exact fun hne => hm)]
    simp only [dedupFirst] at hm
    simp only [dedupFirst]
    simp [hm]
  · rw [if_pos ⟨h, by simp [dedupFirst] at hm ⊢; exact hm⟩]
    simp only [dedupFirst] at hm
    simp only [dedupFirst]
    simp [hm]

/-- Witness for C7 at the spec's own example: references
`["<parent@id>", "<root@id>"]` with parent id `<parent@id>` give
`"<parent@id> <root@id>"` with no duplicate. -/
theorem composeReferences_spec_witness :
    pyStripS "<parent@id>" ≠ "" ∧
    composeReferences ["<parent@id>", "<root@id>"] "<parent@id>" =
      "<parent@id> <root@id>" := by
  refine ⟨by decide, ?_⟩
  rw [composeReferences_spec ["<parent@id>", "<root@id>"] "<parent@id>" (by decide)]
  decide

/-- C7 counterexample: as literally stated ("for every parent message
with a non-empty message-id ... the parent's existing reference chain
deduplicated ... followed by the parent's own message-id"), the claim is
false: the code strips whitespace first, so the non-empty msgid `" "` is
never appended and the entry `" a "` appears stripped. -/
theorem composeReferences_claim_false :
    ¬ (∀ (refs : List String) (msgid : String), msgid ≠ "" →
        composeReferences refs msgid = specComposeReferences refs msgid) := by
  intro hclaim
  have := hclaim [" a "] " " (by decide)
  exact absurd this (by decide)

/-! ## JSON / Python values

`mu find --format=json` output is decoded by Python's `json.loads` into
`None`/`bool`/numbers/`str`/`list`/`dict`; `Jv` models those values.
JSON numbers are modelled as integers (fractional epochs behave the same
way in every claim considered here). -/

inductive Jv where
  | null
  | bool (b : Bool)
  | num (n : Int)
  | str (s : String)
  | arr (items : List Jv)
  | obj (fields : List (String × Jv))
  deriving Repr

mutual

def Jv.decEq : (a b : Jv) → Decidable (a = b)
  | .null, .null => isTrue rfl
  | .bool x, .bool y =>
    if h : x = y then isTrue (by rw [h]) else isFalse (fun hc => h (Jv.bool.inj hc))
  | .num x, .num y =>
    if h : x = y then isTrue (by rw [h]) else isFalse (fun hc => h (Jv.num.inj hc))
  | .str x, .str y =>
    if h : x = y then isTrue (by rw [h]) else isFalse (fun hc => h (Jv.str.inj hc))
  | .arr xs, .arr ys =>
    match Jv.decEqList xs ys with
    | isTrue h => isTrue (by rw [h])
    | isFalse h => isFalse (fun hc => h (Jv.arr.inj hc))
  | .obj xs, .obj ys =>
    match Jv.decEqObj xs ys with
    | isTrue h => isTrue (by rw [h])
    | isFalse h => isFalse (fun hc => h (Jv.obj.inj hc))
  | .null, .bool _ => isFalse (fun h => Jv.noConfusion h)
  | .null, .num _ => isFalse (fun h => Jv.noConfusion h)
  | .null, .str _ => isFalse (fun h => Jv.noConfusion h)
  | .null, .arr _ => isFalse (fun h => Jv.noConfusion h)
  | .null, .obj _ => isFalse (fun h => Jv.noConfusion h)
  | .bool _, .null => isFalse (fun h => Jv.noConfusion h)
  | .bool _, .num _ => isFalse (fun h => Jv.noConfusion h)
  | .bool _, .str _ => isFalse (fun h => Jv.noConfusion h)
  | .bool _, .arr _ => isFalse (fun h => Jv.noConfusion h)
  | .bool _, .obj _ => isFalse (fun h => Jv.noConfusion h)
  | .num _, .null => isFalse (fun h => Jv.noConfusion h)
  | .num _, .bool _ => isFalse (fun h => Jv.noConfusion h)
  | .num _, .str _ => isFalse (fun h => Jv.noConfusion h)
  | .num _, .arr _ => isFalse (fun h => Jv.noConfusion h)
  | .num _, .obj _ => isFalse (fun h => Jv.noConfusion h)
  | .str _, .null => isFalse (fun h => Jv.noConfusion h)
  | .str _, .bool _ => isFalse (fun h => Jv.noConfusion h)
  | .str _, .num _ => isFalse (fun h => Jv.noConfusion h)
  | .str _, .arr _ => isFalse (fun h => Jv.noConfusion h)
  | .str _, .obj _ => isFalse (fun h => Jv.noConfusion h)
  | .arr _, .null => isFalse (fun h => Jv.noConfusion h)
  | .arr _, .bool _ => isFalse (fun h => Jv.noConfusion h)
  | .arr _, .num _ => isFalse (fun h => Jv.noConfusion h)
  | .arr _, .str _ => isFalse (fun h => Jv.noConfusion h)
  | .arr _, .obj _ => isFalse (fun h => Jv.noConfusion h)
  | .obj _, .null => isFalse (fun h => Jv.noConfusion h)
  | .obj _, .bool _ => isFalse (fun h => Jv.noConfusion h)
  | .obj _, .num _ => isFalse (fun h => Jv.noConfusion h)
  | .obj _, .str _ => isFalse (fun h => Jv.noConfusion h)
  | .obj _, .arr _ => isFalse (fun h => Jv.noConfusion h)

def Jv.decEqList : (a b : List Jv) → Decidable (a = b)
  | [], [] => isTrue rfl
  | [], _ :: _ => isFalse (fun h => List.noConfusion h)
  | _ :: _, [] => isFalse (fun h => List.noConfusion h)
  | x :: xs, y :: ys =>
    match Jv.decEq x y with
    | isFalse h1 => isFalse (fun hc => h1 (by injection hc))
    | isTrue h1 =>
      match Jv.decEqList xs ys with
      | isTrue h2 => isTrue (by rw [h1, h2])
      | isFalse h2 => isFalse (fun hc => h2 (by injection hc))

def Jv.decEqObj : (a b : List (String × Jv)) → Decidable (a = b)
  | [], [] => isTrue rfl
  | [], _ :: _ => isFalse (fun h => List.noConfusion h)
  | _ :: _, [] => isFalse (fun h => List.noConfusion h)
  | (k1, v1) :: xs, (k2, v2) :: ys =>
    if hk : k1 = k2 then
      match Jv.decEq v1 v2 with
      | isFalse h1 =>
        isFalse (fun hc => by
          injection hc with hp _
          exact h1 (congrArg Prod.snd hp))
      | isTrue h1 =>
        match Jv.decEqObj xs ys with
        | isTrue h2 => isTrue (by rw [hk, h1, h2])
        | isFalse h2 => isFalse (fun hc => h2 (by injection hc))
    else
      isFalse (fun hc => by
        injection hc with hp _
        exact hk (congrArg Prod.fst hp))

end

instance : DecidableEq Jv := Jv.decEq

/-- Python truthiness (`if value:`) for the modelled values. -/
def pyTruthy : Jv → Bool
  | .null => false
  | .bool b => b
  | .num n => n != 0
  | .str s => s != ""
  | .arr l => !l.isEmpty
  | .obj kvs => !kvs.isEmpty

/-- Python `str()` for the modelled values.  The repository only applies
`str()` to flag/tag/reference entries, which are strings in any real mu
output; the rendering of containers is approximated by a constant tag,
which no claim exercises. -/
def pyStr : Jv → String
  | .str s => s
  | .num n => toString n
  | .bool b => if b then "True" else "False"
  | .null => "None"
  | .arr _ => "[...]"
  | .obj _ => "{...}"

/-- `EmailAddress` (mu.py 23-82).  The `from_mu` dict branch stores the
raw values it finds, so both fields are dynamic values. -/
structure EmailAddress where
  name : Jv
  email : Jv
  deriving DecidableEq, Repr

/-- `EmailMessage` (mu.py 85-108) restricted to the fields that
`from_mu_json` populates.  Fields that Python never coerces keep the raw
decoded value (`Jv`); `date` is an epoch timestamp (`datetime` modelled
by the timestamp it was built from); `references`/`tags` are `str()`-ed
lists; `flags` may keep raw dict keys/values, hence `List Jv`. -/
structure EmailMessage where
  docid : Jv := .num 0
  msgid : Jv := .str ""
  path : Jv := .str ""
  maildir : Jv := .str ""
  subject : Jv := .str ""
  size : Jv := .num 0
  date : Option Int := none
  fromAddr : EmailAddress := ⟨.str "", .str ""⟩
  replyToAddr : Option EmailAddress := none
  toAddrs : List EmailAddress := []
  ccAddrs : List EmailAddress := []
  bccAddrs : List EmailAddress := []
  flags : List Jv := []
  tags : List String := []
  references : List String := []
  inReplyTo : Jv := .str ""
  priority : Jv := .str "normal"
  threadLevel : Jv := .num 0
  deriving DecidableEq, Repr

/-! ## Thread levels (`MuInterface._compute_thread_levels`, mu.py 405-430) -/

/-- The set `visible_msgids` built by the first loop: msgids of the
window's messages that are truthy. -/
def visibleMsgids (messages : List EmailMessage) : List Jv :=
  (messages.filter (fun m => pyTruthy m.msgid)).map (·.msgid)

/-- The `visible_ancestors` counting loop over a message's references. -/
def countVisibleRefs (vis : List Jv) : List String → Nat
  | [] => 0
  | r :: rest => (if Jv.str r ∈ vis then 1 else 0) + countVisibleRefs vis rest

/-- `_compute_thread_levels`: every message's `thread_level` becomes `0`
when it has no references, else the count of its references that are
visible in the window, capped at 10. -/
def computeThreadLevels (messages : List EmailMessage) : List EmailMessage :=
  let vis := visibleMsgids messages
  messages.map (fun m =>
    if m.references = [] then { m with threadLevel := .num 0 }
    else { m with threadLevel := .num (min (countVisibleRefs vis m.references) 10) })

/-- Claim-side ancestor count: the number of reference entries that are
message-ids present in the window (an empty string encodes an absent
message-id and is not "present"). -/
def claimAncestorCount (msgs : List EmailMessage) (m : EmailMessage) : Nat :=
  (m.references.filter
    (fun r => decide (r ≠ "" ∧ ∃ x ∈ msgs, x.msgid = Jv.str r))).length

theorem mem_visibleMsgids (msgs : List EmailMessage) (r : String) :
    (Jv.str r ∈ visibleMsgids msgs) ↔
      (r ≠ "" ∧ ∃ x ∈ msgs, x.msgid = Jv.str r) := by
  unfold visibleMsgids
  simp only [List.mem_map, List.mem_filter]
  constructor
  · rintro ⟨x, ⟨hx, htr⟩, hmsg⟩
    rw [hmsg] at htr
    refine ⟨by simpa [pyTruthy] using htr, x, hx, hmsg⟩
  · rintro ⟨hr, x, hx, heq⟩
    exact ⟨x, ⟨hx, by rw [heq]; simpa [pyTruthy] using hr⟩, heq⟩

theorem countVisibleRefs_eq_filter (msgs : List EmailMessage)
    (refs : List String) :
    countVisibleRefs (visibleMsgids msgs) refs =
      (refs.filter
        (fun r => decide (r ≠ "" ∧ ∃ x ∈ msgs, x.msgid = Jv.str r))).length := by
  induction refs with
  | nil => rfl
  | cons r rest ih =>
    show (if Jv.str r ∈ visibleMsgids msgs then 1 else 0) + _ = _
    by_cases h : Jv.str r ∈ visibleMsgids msgs
    · rw [if_pos h, ih]
      rw [List.filter_cons_of_pos (by simpa using (mem_visibleMsgids msgs r).mp h)]
      simp [Nat.add_comm]
    · rw [if_neg h, ih]
      rw [List.filter_cons_of_neg (by simpa using fun hc => h ((mem_visibleMsgids msgs r).mpr hc))]
      simp

/-- C6: with threading enabled, each message's `thread_level` equals the
count of its references entries whose message-id is present in the same
window, capped at 10 (`min(visible ancestor count, 10)`), and a message
with no references gets level 0. -/
theorem computeThreadLevels_spec (msgs : List EmailMessage) :
    computeThreadLevels msgs =
      msgs.map (fun m =>
        { m with threadLevel := .num (min (claimAncestorCount msgs m) 10) }) := by
  unfold computeThreadLevels claimAncestorCount
  refine List.map_congr_left (fun m hm => ?_)
  by_cases h : m.references = []
  · rw [if_pos h, h]
    rfl
  · rw [if_neg h, countVisibleRefs_eq_filter]

/-! ## Address formatting and parsing (`EmailAddress.__str__` mu.py 29-44,
`EmailAddress.from_mu` string branch mu.py 59-70)

`__str__` quotes the display name when it contains one of the special
characters, escaping embedded quotes (`name.replace('"', '\\"')`); the
string branch of `from_mu` matches the regex `(.+?)\s*<(.+)>`, strips the
outer quotes when present, and unescapes (`.replace('\\"', '"')` then
`.replace('\\\\', '\\')`). -/

/-- `name.replace('"', '\\"')`. -/
def escQuote : List Char → List Char
  | [] => []
  | c :: rest => if c = '"' then '\\' :: '"' :: escQuote rest else c :: escQuote rest

/-- `name.replace('\\"', '"')` (left-to-right, non-overlapping). -/
def unescQuote : List Char → List Char
  | [] => []
  | [c] => [c]
  | c1 :: c2 :: rest =>
    if c1 = '\\' ∧ c2 = '"' then '"' :: unescQuote rest
    else c1 :: unescQuote (c2 :: rest)

/-- `name.replace('\\\\', '\\')` (left-to-right, non-overlapping). -/
def unescBackslash : List Char → List Char
  | [] => []
  | [c] => [c]
  | c1 :: c2 :: rest =>
    if c1 = '\\' ∧ c2 = '\\' then '\\' :: unescBackslash rest
    else c1 :: unescBackslash (c2 :: rest)

/-- The characters whose presence triggers quoting in `__str__`. -/
def specialChars : List Char := [',', ';', ':', '"', '<', '>', '@', '[', ']']

/-- `any(c in self.name for c in ',;:"<>@[]')`. -/
def needsQuoting (name : List Char) : Bool :=
  specialChars.any (fun c => decide (c ∈ name))

/-- `EmailAddress.__str__` on the two character lists. -/
def emailAddressStr (name email : List Char) : List Char :=
  if name ≠ [] then
    if needsQuoting name then
      '"' :: escQuote name ++ '"' :: ' ' :: '<' :: email ++ ['>']
    else name ++ ' ' :: '<' :: email ++ ['>']
  else email

/-- Group 2 of `re.match(r"(.+?)\s*<(.+)>", s)` once the literal `'<'` has
been consumed: `'.'` does not match a newline (no `re.DOTALL`), so the
greedy `(.+)` followed by `'>'` captures everything up to the *last*
`'>'` that lies before the first newline of the remainder, and needs at
least one character. -/
def reGroup2 (l : List Char) : Option (List Char) :=
  match (l.takeWhile (fun c => c ≠ '\n')).reverse.dropWhile (fun c => c ≠ '>') with
  | [] => none
  | _ :: before => if before.isEmpty then none else some before.reverse

/-- One attempt of the backtracking matcher with group 1 fixed to `g1`:
`\s*` must consume the maximal whitespace run (a shorter run would leave a
whitespace character where the literal `'<'` is required), then `'<'`,
then group 2. -/
def reTryAt (g1 rest : List Char) : Option (List Char × List Char) :=
  match rest.dropWhile isPySpace with
  | '<' :: tail =>
    match reGroup2 tail with
    | some g2 => some (g1, g2)
    | none => none
  | _ => none

/-- The non-greedy `(.+?)` tries the shortest group 1 first, extending one
character at a time; `'.'` does not match a newline, so the whole match
fails once group 1 would have to absorb one. -/
def reMatchAux (acc : List Char) : List Char → Option (List Char × List Char)
  | [] => none
  | c :: rest =>
    if c = '\n' then none
    else
      match reTryAt (acc ++ [c]) rest with
      | some r => some r
      | none => reMatchAux (acc ++ [c]) rest

/-- `re.match(r"(.+?)\s*<(.+)>", s)`, returning the two captured groups. -/
def reMatchNameEmail (s : List Char) : Option (List Char × List Char) :=
  reMatchAux [] s

/-- The string branch of `EmailAddress.from_mu` (mu.py 59-70): regex
match, strip, unquote, unescape; on no match the whole string is the
email and the name is empty. -/
def fromMuStrCore (s : List Char) : List Char × List Char :=
  match reMatchNameEmail s with
  | some (g1, g2) =>
    let name := pyStrip g1
    let name :=
      if name.head? = some '"' ∧ name.getLast? = some '"' then
        unescBackslash (unescQuote ((name.drop 1).dropLast))
      else name
    (name, pyStrip g2)
  | none => ([], s)



/-! ### Round-trip lemmas for the address strings -/

theorem escQuote_cons (c : Char) (l : List Char) :
    escQuote (c :: l) =
      if c = '"' then '\\' :: '"' :: escQuote l else c :: escQuote l := rfl

theorem unescQuote_cons2 (c1 c2 : Char) (l : List Char) :
    unescQuote (c1 :: c2 :: l) =
      if c1 = '\\' ∧ c2 = '"' then '"' :: unescQuote l
      else c1 :: unescQuote (c2 :: l) := rfl

theorem unescBackslash_cons2 (c1 c2 : Char) (l : List Char) :
    unescBackslash (c1 :: c2 :: l) =
      if c1 = '\\' ∧ c2 = '\\' then '\\' :: unescBackslash l
      else c1 :: unescBackslash (c2 :: l) := rfl

theorem mem_escQuote (n : List Char) (c : Char) (h : c ∈ escQuote n) :
    c ∈ n ∨ c = '\\' := by
  induction n with
  | nil => exact absurd h (by simp [escQuote])
  | cons a rest ih =>
    rw [escQuote_cons] at h
    by_cases ha : a = '"'
    · rw [if_pos ha] at h
      rcases List.mem_cons.mp h with rfl | h2
      · exact Or.inr rfl
      rcases List.mem_cons.mp h2 with rfl | h3
      · exact Or.inl (ha ▸ List.mem_cons_self _ _)
      rcases ih h3 with hm | hb
      · exact Or.inl (List.mem_cons_of_mem _ hm)
      · exact Or.inr hb
    · rw [if_neg ha] at h
      rcases List.mem_cons.mp h with rfl | h2
      · exact Or.inl (List.mem_cons_self _ _)
      rcases ih h2 with hm | hb
      · exact Or.inl (List.mem_cons_of_mem _ hm)
      · exact Or.inr hb

theorem unescQuote_cons_of_ne (c : Char) (l : List Char) (h : c ≠ '\\') :
    unescQuote (c :: l) = c :: unescQuote l := by
  cases l with
  | nil => rfl
  | cons c2 rest => rw [unescQuote_cons2, if_neg (fun hc => h hc.1)]

theorem unescQuote_escQuote (n : List Char) (hbs : '\\' ∉ n) :
    unescQuote (escQuote n) = n := by
  induction n with
  | nil => rfl
  | cons a rest ih =>
    have hb : a ≠ '\\' := fun h => hbs (h ▸ List.mem_cons_self a rest)
    have hrest : '\\' ∉ rest := fun h => hbs (List.mem_cons_of_mem a h)
    by_cases ha : a = '"'
    · subst ha
      rw [escQuote_cons, if_pos rfl, unescQuote_cons2, if_pos ⟨rfl, rfl⟩, ih hrest]
    · rw [escQuote_cons, if_neg ha, unescQuote_cons_of_ne a _ hb, ih hrest]

theorem unescBackslash_of_not_mem (l : List Char) (h : '\\' ∉ l) :
    unescBackslash l = l := by
  induction l with
  | nil => rfl
  | cons c rest ih =>
    have hc : c ≠ '\\' := fun hh => h (hh ▸ List.mem_cons_self c rest)
    have hrest : '\\' ∉ rest := fun hh => h (List.mem_cons_of_mem c hh)
    cases rest with
    | nil => rfl
    | cons c2 r2 =>
      rw [unescBackslash_cons2, if_neg (fun hp => hc hp.1), ih hrest]

theorem dropWhile_append_of_exists (p : Char → Bool) (l t : List Char)
    (h : ∃ c ∈ l, p c = false) :
    (l ++ t).dropWhile p = l.dropWhile p ++ t := by
  induction l with
  | nil => simp at h
  | cons c l ih =>
    by_cases hc : p c
    · rw [List.cons_append, List.dropWhile_cons, List.dropWhile_cons,
        if_pos hc, if_pos hc]
      apply ih
      obtain ⟨d, hd, hdf⟩ := h
      rcases List.mem_cons.mp hd with rfl | hdl
      · rw [hc] at hdf; cases hdf
      · exact ⟨d, hdl, hdf⟩
    · rw [List.cons_append, List.dropWhile_cons, List.dropWhile_cons,
        if_neg hc, if_neg hc, List.cons_append]

theorem exists_head_dropWhile (p : Char → Bool) (l : List Char)
    (h : ∃ c ∈ l, p c = false) :
    ∃ c rest, l.dropWhile p = c :: rest ∧ c ∈ l ∧ p c = false := by
  induction l with
  | nil => simp at h
  | cons a l ih =>
    by_cases ha : p a
    · rw [List.dropWhile_cons, if_pos ha]
      have h2 : ∃ c ∈ l, p c = false := by
        obtain ⟨d, hd, hdf⟩ := h
        rcases List.mem_cons.mp hd with rfl | hdl
        · rw [ha] at hdf; cases hdf
        · exact ⟨d, hdl, hdf⟩
      obtain ⟨c, rest, hcr, hcm, hcf⟩ := ih h2
      exact ⟨c, rest, hcr, List.mem_cons_of_mem _ hcm, hcf⟩
    · rw [List.dropWhile_cons, if_neg ha]
      exact ⟨a, l, rfl, List.mem_cons_self _ _, by simpa using ha⟩

theorem reTryAt_none (g1 u v : List Char)
    (hex : ∃ c ∈ u, isPySpace c = false) (hlt : '<' ∉ u) :
    reTryAt g1 (u ++ v) = none := by
  obtain ⟨c, rest, hcr, hcm, hcf⟩ := exists_head_dropWhile isPySpace u hex
  have hd : (u ++ v).dropWhile isPySpace = c :: (rest ++ v) := by
    rw [dropWhile_append_of_exists isPySpace u v ⟨c, hcm, hcf⟩, hcr, List.cons_append]
  have hc : c ≠ '<' := fun h => hlt (h ▸ hcm)
  show (match (u ++ v).dropWhile isPySpace with
    | '<' :: tail =>
      match reGroup2 tail with
      | some g2 => some (g1, g2)
      | none => none
    | _ => none) = none
  rw [hd]
  split
  · rename_i tail heq
    injection heq with h1 _
    exact absurd h1 hc
  · rfl

theorem takeWhile_all (p : Char → Bool) (l : List Char)
    (h : ∀ c ∈ l, p c = true) : l.takeWhile p = l := by
  induction l with
  | nil => rfl
  | cons c rest ih =>
    rw [List.takeWhile_cons, if_pos (h c (List.mem_cons_self _ _)),
      ih (fun d hd => h d (List.mem_cons_of_mem _ hd))]

theorem reGroup2_concat (e : List Char) (he : e ≠ []) (hnl : '\n' ∉ e) :
    reGroup2 (e ++ ['>']) = some e := by
  show (match ((e ++ ['>']).takeWhile (fun c => c ≠ '\n')).reverse.dropWhile
      (fun c => c ≠ '>') with
    | [] => none
    | _ :: before => if before.isEmpty then none else some before.reverse) = some e
  rw [takeWhile_all _ _ (by
    intro c hc
    rcases List.mem_append.mp hc with h1 | h2
    · have hcne : c ≠ '\n' := fun hcn => hnl (hcn ▸ h1)
      simpa using hcne
    · simp at h2
      simp [h2])]
  have h1 : (e ++ ['>']).reverse = '>' :: e.reverse := by
    rw [List.reverse_append]
    rfl
  have h2 : ('>' :: e.reverse).dropWhile (fun c => decide (c ≠ '>')) =
      '>' :: e.reverse := by
    rw [List.dropWhile_cons, if_neg (by simp)]
  rw [h1, h2]
  show (if e.reverse.isEmpty = true then none else some e.reverse.reverse) = some e
  rw [show (e.reverse.isEmpty) = false from by
    cases e with
    | nil => exact absurd rfl he
    | cons a l => simp]
  rw [if_neg (by simp), List.reverse_reverse]

theorem reTryAt_succ (g1 e : List Char) (he : e ≠ []) (hnl : '\n' ∉ e) :
    reTryAt g1 (' ' :: ('<' :: (e ++ ['>']))) = some (g1, e) := by
  show (match (' ' :: ('<' :: (e ++ ['>']))).dropWhile isPySpace with
    | '<' :: tail =>
      match reGroup2 tail with
      | some g2 => some (g1, g2)
      | none => none
    | _ => none) = some (g1, e)
  have h1 : (' ' :: ('<' :: (e ++ ['>']))).dropWhile isPySpace =
      '<' :: (e ++ ['>']) := by
    rw [List.dropWhile_cons, if_pos (by decide), List.dropWhile_cons,
      if_neg (by decide)]
  rw [h1]
  show (match reGroup2 (e ++ ['>']) with
    | some g2 => some (g1, g2)
    | none => none) = some (g1, e)
  rw [reGroup2_concat e he hnl]

theorem reMatchAux_concat (v : List Char) (r : List Char × List Char) :
    ∀ (u acc : List Char), u ≠ [] → '\n' ∉ u →
    (∀ p c s, u = p ++ c :: s → s ≠ [] →
      reTryAt (acc ++ p ++ [c]) (s ++ v) = none) →
    reTryAt (acc ++ u) v = some r →
    reMatchAux acc (u ++ v) = some r := by
  intro u
  induction u with
  | nil => intro acc h; exact absurd rfl h
  | cons c u2 ih =>
    intro acc _ hnl hfail hsucc
    have hc : c ≠ '\n' := by
      intro hceq
      subst hceq
      exact hnl (List.mem_cons_self _ _)
    show (if c = '\n' then none
      else
        match reTryAt (acc ++ [c]) (u2 ++ v) with
        | some r2 => some r2
        | none => reMatchAux (acc ++ [c]) (u2 ++ v)) = some r
    rw [if_neg hc]
    by_cases hu2 : u2 = []
    · subst hu2
      have : reTryAt (acc ++ [c]) v = some r := by
        have h0 : acc ++ [c] = acc ++ (c :: ([] : List Char)) := rfl
        rw [h0]
        exact hsucc
      simp only [List.nil_append]
      rw [this]
    · have hnone : reTryAt (acc ++ [c]) (u2 ++ v) = none := by
        have := hfail [] c u2 (by simp) hu2
        simpa using this
      rw [hnone]
      apply ih (acc ++ [c]) hu2 (fun h => hnl (List.mem_cons_of_mem _ h))
      · intro p d s heq hs
        have := hfail (c :: p) d s (by rw [heq]; rfl) hs
        simpa [List.append_assoc] using this
      · have h3 : acc ++ [c] ++ u2 = acc ++ (c :: u2) := by simp
        rw [h3]
        exact hsucc

theorem pyStrip_quoted (m : List Char) :
    pyStrip ('"' :: (m ++ ['"'])) = '"' :: (m ++ ['"']) := by
  unfold pyStrip
  rw [List.dropWhile_cons, if_neg (by decide)]
  have h1 : ('"' :: (m ++ ['"'])).reverse = '"' :: ('"' :: m).reverse := by
    rw [show '"' :: (m ++ ['"']) = ('"' :: m) ++ ['"'] from by simp,
      List.reverse_append]
    rfl
  rw [h1, List.dropWhile_cons, if_neg (by decide), ← h1, List.reverse_reverse]

/-- The quoted group-1 text produced by `__str__` for a special name. -/
def quotedName (n : List Char) : List Char :=
  '"' :: (escQuote n ++ ['"'])

theorem not_mem_quotedName (n : List Char) (c : Char) (hn : c ∉ n)
    (hq : c ≠ '"') (hb : c ≠ '\\') : c ∉ quotedName n := by
  intro h
  unfold quotedName at h
  rcases List.mem_cons.mp h with h1 | h2
  · exact hq h1
  rcases List.mem_append.mp h2 with h3 | h4
  · rcases mem_escQuote n c h3 with h5 | h6
    · exact hn h5
    · exact hb h6
  · simp at h4
    exact hq h4

theorem getLast_quotedName (n : List Char) :
    (quotedName n).getLast? = some '"' := by
  unfold quotedName
  rw [show '"' :: (escQuote n ++ ['"']) = ('"' :: escQuote n) ++ ['"'] from by simp]
  exact List.getLast?_concat _

theorem emailAddressStr_quoted (name email : List Char) (hnn : name ≠ [])
    (hq : needsQuoting name = true) :
    emailAddressStr name email =
      quotedName name ++ (' ' :: ('<' :: (email ++ ['>']))) := by
  unfold emailAddressStr quotedName
  rw [if_pos hnn, if_pos hq]
  simp

theorem reMatchNameEmail_format (name email : List Char)
    (hlt : '<' ∉ name) (hnamenl : '\n' ∉ name)
    (he : email ≠ []) (hemailnl : '\n' ∉ email) :
    reMatchNameEmail (quotedName name ++ (' ' :: ('<' :: (email ++ ['>'])))) =
      some (quotedName name, email) := by
  apply reMatchAux_concat
  · simp [quotedName]
  · exact not_mem_quotedName name '\n' hnamenl (by decide) (by decide)
  · intro p c s heq hs
    have hlast : s.getLast? = some '"' := by
      have h1 := getLast_quotedName name
      rw [heq, List.getLast?_append_of_ne_nil p (by simp),
        show (c :: s) = [c] ++ s from rfl,
        List.getLast?_append_of_ne_nil [c] hs] at h1
      exact h1
    apply reTryAt_none
    · exact ⟨'"', List.mem_of_mem_getLast? (by rw [hlast]; rfl), by decide⟩
    · intro hin
      apply not_mem_quotedName name '<' hlt (by decide) (by decide)
      rw [heq]
      exact List.mem_append_right p (List.mem_cons_of_mem c hin)
  · have h0 : ([] : List Char) ++ quotedName name = quotedName name := by simp
    rw [h0]
    exact reTryAt_succ _ email he hemailnl

/-- C2 (amended): for every address whose name contains a comma or a
quote but no angle bracket, no backslash and no newline, and whose email
is non-empty, newline-free and free of surrounding whitespace, parsing
the formatted string gives back the same address. -/
theorem emailAddress_roundtrip (name email : List Char)
    (hspecial : ',' ∈ name ∨ '"' ∈ name)
    (hlt : '<' ∉ name) (hgt : '>' ∉ name) (hbs : '\\' ∉ name)
    (hnamenl : '\n' ∉ name)
    (hemail : email ≠ []) (hemailnl : '\n' ∉ email)
    (hstrip : pyStrip email = email) :
    fromMuStrCore (emailAddressStr name email) = (name, email) := by
  have hnn : name ≠ [] := by
    rcases hspecial with h | h <;> exact List.ne_nil_of_mem h
  have hq : needsQuoting name = true := by
    rcases hspecial with h | h
    · exact List.any_eq_true.mpr ⟨',', by decide, by simpa using h⟩
    · exact List.any_eq_true.mpr ⟨'"', by decide, by simpa using h⟩
  rw [emailAddressStr_quoted name email hnn hq]
  unfold fromMuStrCore
  rw [reMatchNameEmail_format name email hlt hnamenl hemail hemailnl]
  show (let n1 := pyStrip (quotedName name)
        let n2 := if n1.head? = some '"' ∧ n1.getLast? = some '"' then
            unescBackslash (unescQuote ((n1.drop 1).dropLast))
          else n1
        (n2, pyStrip email)) = (name, email)
  have h1 : pyStrip (quotedName name) = quotedName name := pyStrip_quoted _
  show (let n1 := pyStrip (quotedName name)
        (if n1.head? = some '"' ∧ n1.getLast? = some '"' then
            unescBackslash (unescQuote ((n1.drop 1).dropLast))
          else n1,
         pyStrip email)) = (name, email)
  rw [h1, hstrip]
  have hhead : (quotedName name).head? = some '"' := rfl
  show ((if (quotedName name).head? = some '"' ∧
        (quotedName name).getLast? = some '"' then
      unescBackslash (unescQuote (((quotedName name).drop 1).dropLast))
    else quotedName name), email) = (name, email)
  rw [if_pos ⟨hhead, getLast_quotedName name⟩]
  have hdrop : ((quotedName name).drop 1).dropLast = escQuote name := by
    show (escQuote name ++ ['"']).dropLast = escQuote name
    exact List.dropLast_concat
  rw [hdrop, unescQuote_escQuote name hbs, unescBackslash_of_not_mem name hbs]

/-- Witness for C2's amended round trip at the concrete address
`"Derose, Joseph" <derose@bnl.gov>`. -/
theorem emailAddress_roundtrip_witness :
    (',' ∈ "Derose, Joseph".data ∨ '"' ∈ "Derose, Joseph".data) ∧
    fromMuStrCore (emailAddressStr "Derose, Joseph".data "derose@bnl.gov".data) =
      ("Derose, Joseph".data, "derose@bnl.gov".data) :=
  ⟨Or.inl (by decide),
   emailAddress_roundtrip "Derose, Joseph".data "derose@bnl.gov".data
     (Or.inl (by decide)) (by decide) (by decide) (by decide) (by decide)
     (by decide) (by decide) (by decide)⟩

/-- C2 counterexample: the claim as stated (round trip for every address
whose name contains a comma or quote and no angle brackets) is false: the
name `\\,` (backslash, backslash, comma) is formatted without escaping
the backslashes but parsing collapses `\\` to `\`, giving back `\,`. -/
theorem emailAddress_roundtrip_claim_false :
    ¬ (∀ (name email : List Char), (',' ∈ name ∨ '"' ∈ name) →
        '<' ∉ name → '>' ∉ name →
        fromMuStrCore (emailAddressStr name email) = (name, email)) := by
  intro hclaim
  have := hclaim ['\\', '\\', ','] "a@b".data (Or.inl (by decide))
    (by decide) (by decide)
  exact absurd this (by decide)

/-! ## Decoding mu JSON output (`EmailMessage.from_mu_json`, mu.py 145-241)

`json.loads` and `datetime.fromisoformat` are external library functions
and are taken as parameters `jload` / `iso` (`none` models their parse
failure exception).  `datetime.fromtimestamp` raises for out-of-range
timestamps; it is modelled over the UTC representable range for years
1..9999 (the local-time shift of the bound does not affect any claim,
which stay far from the boundary). -/

/-- `datetime.fromtimestamp`, as the identity on representable epoch
timestamps and an error outside them. -/
def fromTimestampE (t : Int) : Except PyErr Int :=
  if -62135596800 ≤ t ∧ t ≤ 253402300799 then .ok t else .error .valueError

/-- The numeric value of a Python object when `isinstance(x, (int, float))`
holds (`bool` is a subclass of `int`). -/
def jvNumVal : Jv → Option Int
  | .num n => some n
  | .bool b => some (if b then 1 else 0)
  | _ => none

/-- The date-decoding block of `from_mu_json` (mu.py 173-187).  A falsy
value is skipped; a list of length ≥ 2 is decoded as
`high * 65536 + low` — multiplying or adding non-numeric entries, or
passing the resulting non-number to `fromtimestamp`, raises `TypeError`;
a raw number is the epoch; a string goes through `fromisoformat` with
`ValueError` caught to an absent date; any other shape is left absent. -/
def decodeDate (iso : String → Option Int) (v : Jv) : Except PyErr (Option Int) :=
  if pyTruthy v then
    match v with
    | .arr (h :: l :: _) =>
      match jvNumVal h, jvNumVal l with
      | some hn, some ln =>
        match fromTimestampE (hn * 65536 + ln) with
        | .ok t => .ok (some t)
        | .error e => .error e
      | _, _ => .error .typeError
    | .num n =>
      match fromTimestampE n with
      | .ok t => .ok (some t)
      | .error e => .error e
    | .bool b =>
      match fromTimestampE (if b then 1 else 0) with
      | .ok t => .ok (some t)
      | .error e => .error e
    | .str s =>
      match iso s with
      | some t => .ok (some t)
      | none => .ok none
    | _ => .ok none
  else .ok none

/-- Python `dict.get(key, default)` (object keys are unique after
`json.loads`, which keeps the last duplicate; the modelled field lists
carry unique keys and lookup takes the first match). -/
def dictGet (kvs : List (String × Jv)) (k : String) (default : Jv) : Jv :=
  match kvs.find? (fun p => p.1 = k) with
  | some p => p.2
  | none => default

/-- The `get` helper of `from_mu_json` (mu.py 157-163): try the
colon-prefixed key; a present non-`None` value wins, otherwise fall back
to the plain key with the given default. -/
def muGet (kvs : List (String × Jv)) (key : String) (default : Jv) : Jv :=
  match (kvs.find? (fun p => p.1 = ":" ++ key)).map Prod.snd with
  | some v => if v = Jv.null then dictGet kvs key default else v
  | none => dictGet kvs key default

/-- The string branch of `EmailAddress.from_mu` wrapped into the dynamic
address record. -/
def fromMuStr (s : String) : EmailAddress :=
  ⟨.str ⟨(fromMuStrCore s.data).1⟩, .str ⟨(fromMuStrCore s.data).2⟩⟩

/-- `EmailAddress.from_mu` (mu.py 46-82).  A dict with a truthy non-string
`:name`/`name` raises `AttributeError` at `name.startswith`. -/
def emailAddressFromMu : Jv → Except PyErr EmailAddress
  | .null => .ok ⟨.str "", .str ""⟩
  | .str s => .ok (fromMuStr s)
  | .obj kvs =>
    let name := dictGet kvs ":name" (dictGet kvs "name" (.str ""))
    let emailv := dictGet kvs ":email" (dictGet kvs "email"
      (dictGet kvs ":addr" (dictGet kvs "addr" (.str ""))))
    if pyTruthy name then
      match name with
      | .str s =>
        let s2 : String :=
          if s.data.head? = some '"' ∧ s.data.getLast? = some '"' then
            ⟨unescBackslash (unescQuote ((s.data.drop 1).dropLast))⟩
          else s
        .ok ⟨.str s2, emailv⟩
      | _ => .error .attributeError
    else .ok ⟨name, emailv⟩
  | .arr (x :: _) => emailAddressFromMu x
  | .arr [] => .ok ⟨.str "", .str ""⟩
  | .num _ => .ok ⟨.str "", .str ""⟩
  | .bool _ => .ok ⟨.str "", .str ""⟩

/-- Flag normalisation (mu.py 209-217): a list is `str()`-ed elementwise,
a dict contributes its keys then its values raw, a string is
whitespace-split; any other shape leaves the default empty list. -/
def flagsFromJv : Jv → List Jv
  | .arr l => l.map (fun f => .str (pyStr f))
  | .obj kvs => kvs.map (fun p => Jv.str p.1) ++ kvs.map (fun p => p.2)
  | .str s => ((s.split isPySpace).filter (fun x => x ≠ "")).map .str
  | _ => []

/-- List-of-`str()` normalisation used for `references` and `tags`. -/
def strListFromJv : Jv → List String
  | .arr l => l.map pyStr
  | _ => []

/-- `EmailMessage.from_mu_json` (mu.py 145-241). -/
def fromMuJson (iso : String → Option Int) : Jv → Except PyErr EmailMessage
  | .obj kvs => do
    let dateVal := muGet kvs "date" .null
    let date ← decodeDate iso dateVal
    let fromData := muGet kvs "from" .null
    let fromAddr ←
      if pyTruthy fromData then
        match fromData with
        | .arr (x :: _) => emailAddressFromMu x
        | v => emailAddressFromMu v
      else pure ⟨.str "", .str ""⟩
    let toAddrs ←
      match muGet kvs "to" (.arr []) with
      | .arr l => l.mapM emailAddressFromMu
      | _ => pure []
    let ccAddrs ←
      match muGet kvs "cc" (.arr []) with
      | .arr l => l.mapM emailAddressFromMu
      | _ => pure []
    let bccAddrs ←
      match muGet kvs "bcc" (.arr []) with
      | .arr l => l.mapM emailAddressFromMu
      | _ => pure []
    let replyTo ←
      match muGet kvs "reply-to" (.arr []) with
      | .arr (x :: _) => (emailAddressFromMu x).map some
      | _ => pure none
    pure {
      docid := muGet kvs "docid" (.num 0)
      msgid := muGet kvs "msgid" (muGet kvs "message-id" (.str ""))
      path := muGet kvs "path" (.str "")
      maildir := muGet kvs "maildir" (.str "")
      subject := muGet kvs "subject" (.str "(no subject)")
      size := muGet kvs "size" (.num 0)
      date := date
      fromAddr := fromAddr
      replyToAddr := replyTo
      toAddrs := toAddrs
      ccAddrs := ccAddrs
      bccAddrs := bccAddrs
      flags := flagsFromJv (muGet kvs "flags" (.arr []))
      tags := strListFromJv (muGet kvs "tags" (.arr []))
      references := strListFromJv (muGet kvs "references" (.arr []))
      inReplyTo := muGet kvs "in-reply-to" (.str "")
      priority := muGet kvs "priority" (.str "normal")
      threadLevel := muGet kvs "thread-level" (.num 0) }
  | _ => .error .attributeError

/-! ## `MuInterface.find` (mu.py 323-403) and `_run_mu` (mu.py 265-295)

The subprocess execution is modelled by the environment's `RunOutcome`:
the binary can be missing (`FileNotFoundError` → `RuntimeError`), the call
can time out (`subprocess.TimeoutExpired` → `RuntimeError`), or the
process completes with an exit code, stdout and stderr.  The query and
option arguments only shape the command line built on mu.py 348-366 and do
not influence the post-processing under verification, apart from the
`threads` flag. -/

inductive RunOutcome where
  | missing
  | timeout
  | completed (rc : Int) (stdout stderr : String)

/-- `_run_mu`: surfaces `RuntimeError` for a missing binary or a timeout,
otherwise returns the completed process. -/
def runMu : RunOutcome → Except PyErr (Int × String × String)
  | .missing => .error (.runtimeError "mu binary not found")
  | .timeout => .error (.runtimeError "mu command timed out")
  | .completed rc stdout stderr => .ok (rc, stdout, stderr)

/-- Substring test (`"no matches" in stderr.lower()`). -/
def listContainsSub (hay needle : List Char) : Bool :=
  match hay with
  | [] => needle.isEmpty
  | _ :: t => needle.isPrefixOf hay || listContainsSub t needle

/-- `line.rstrip(',')`. -/
def pyRstripComma (s : String) : String :=
  ⟨(s.data.reverse.dropWhile (fun c => c = ',')).reverse⟩

/-- The fallback line-by-line parse (mu.py 388-397): blank and
bracket/comma-only lines are skipped; the first line `json.loads` cannot
parse aborts the loop keeping the messages accumulated so far
(`except json.JSONDecodeError: pass` wraps the whole loop); a decode
error from `from_mu_json` is not a `JSONDecodeError` and propagates. -/
def fallbackLoop (jload : String → Option Jv) (iso : String → Option Int) :
    List String → List EmailMessage → Except PyErr (List EmailMessage)
  | [], acc => .ok acc
  | l :: rest, acc =>
    let line := pyStripS l
    if line = "" ∨ line = "[" ∨ line = "]" ∨ line = "," then
      fallbackLoop jload iso rest acc
    else
      match jload (pyRstripComma line) with
      | none => .ok acc
      | some v =>
        match fromMuJson iso v with
        | .error e => .error e
        | .ok m => fallbackLoop jload iso rest (acc ++ [m])

/-- The list comprehension `[EmailMessage.from_mu_json(m) for m in data]`:
the first decode error propagates. -/
def decodeAll (iso : String → Option Int) : List Jv → Except PyErr (List EmailMessage)
  | [] => .ok []
  | v :: rest =>
    match fromMuJson iso v with
    | .error e => .error e
    | .ok m =>
      match decodeAll iso rest with
      | .error e => .error e
      | .ok ms => .ok (m :: ms)

/-- The stdout parse of `find` (mu.py 377-397): one JSON array (or a
single object) first, then the line-by-line fallback. -/
def findParse (jload : String → Option Jv) (iso : String → Option Int)
    (out : String) : Except PyErr (List EmailMessage) :=
  match jload out with
  | some (.arr l) => decodeAll iso l
  | some (.obj kvs) =>
    match fromMuJson iso (.obj kvs) with
    | .error e => .error e
    | .ok m => .ok [m]
  | some _ => .ok []
  | none => fallbackLoop jload iso (out.splitOn "\n") []

/-- The part of `find` after `result = self._run_mu(args)` returned a
completed process (mu.py 370-403): any non-zero exit code returns the
empty list (whether or not stderr contains "no matches"); on success
stdout is stripped and parsed; thread levels are computed when requested
and results are non-empty. -/
def findPost (jload : String → Option Jv) (iso : String → Option Int)
    (threads : Bool) (rc : Int) (stdout stderr : String) :
    Except PyErr (List EmailMessage) :=
  if rc ≠ 0 then
    if listContainsSub stderr.toLower.data "no matches".data then .ok []
    else .ok []
  else
    match findParse jload iso (pyStripS stdout) with
    | .error e => .error e
    | .ok msgs =>
      .ok (if threads ∧ msgs ≠ [] then computeThreadLevels msgs else msgs)

/-- `MuInterface.find` (mu.py 323-403). -/
def find (jload : String → Option Jv) (iso : String → Option Int)
    (threads : Bool) (o : RunOutcome) : Except PyErr (List EmailMessage) :=
  match runMu o with
  | .error e => .error e
  | .ok (rc, stdout, stderr) => findPost jload iso threads rc stdout stderr

/-- C9 (amended): all three date encodings are accepted — a `[high, low,
...]` numeric pair decoded as `high * 65536 + low`, a raw numeric epoch,
and an ISO-8601 string (the numeric forms when the timestamp is
representable); an unparseable ISO string and shape-mismatched values
yield an absent date; but a pair with non-numeric entries (and an
out-of-range numeric timestamp) raises instead of yielding an absent
date. -/
theorem decodeDate_spec :
    (∀ (iso : String → Option Int) (h l : Int) (rest : List Jv),
      -62135596800 ≤ h * 65536 + l → h * 65536 + l ≤ 253402300799 →
      decodeDate iso (.arr (.num h :: .num l :: rest)) =
        .ok (some (h * 65536 + l))) ∧
    (∀ (iso : String → Option Int) (n : Int),
      n ≠ 0 → -62135596800 ≤ n → n ≤ 253402300799 →
      decodeDate iso (.num n) = .ok (some n)) ∧
    (∀ (iso : String → Option Int) (s : String) (t : Int),
      s ≠ "" → iso s = some t → decodeDate iso (.str s) = .ok (some t)) ∧
    (∀ (iso : String → Option Int) (s : String),
      s ≠ "" → iso s = none → decodeDate iso (.str s) = .ok none) ∧
    (∀ (iso : String → Option Int), decodeDate iso .null = .ok none) ∧
    (∀ (iso : String → Option Int) (x : Jv),
      decodeDate iso (.arr [x]) = .ok none) := by
  refine ⟨?_, ?_, ?_, ?_, ?_, ?_⟩
  · intro iso h l rest h1 h2
    show (match fromTimestampE (h * 65536 + l) with
      | .ok t => (.ok (some t) : Except PyErr (Option Int))
      | .error e => .error e) = .ok (some (h * 65536 + l))
    unfold fromTimestampE
    rw [if_pos ⟨h1, h2⟩]
  · intro iso n hne h1 h2
    have ht : pyTruthy (Jv.num n) = true := by
      simp [pyTruthy, hne]
    unfold decodeDate
    rw [if_pos ht]
    show (match fromTimestampE n with
      | .ok t => (.ok (some t) : Except PyErr (Option Int))
      | .error e => .error e) = .ok (some n)
    unfold fromTimestampE
    rw [if_pos ⟨h1, h2⟩]
  · intro iso s t hs hiso
    have ht : pyTruthy (Jv.str s) = true := by
      simp [pyTruthy, hs]
    unfold decodeDate
    rw [if_pos ht]
    show (match iso s with
      | some u => (.ok (some u) : Except PyErr (Option Int))
      | none => .ok none) = .ok (some t)
    rw [hiso]
  · intro iso s hs hiso
    have ht : pyTruthy (Jv.str s) = true := by
      simp [pyTruthy, hs]
    unfold decodeDate
    rw [if_pos ht]
    show (match iso s with
      | some u => (.ok (some u) : Except PyErr (Option Int))
      | none => .ok none) = .ok none
    rw [hiso]
  · intro iso
    rfl
  · intro iso x
    rfl

/-- Witness for C9's amended statement at concrete dates: the `[high,
low, usec]` pair, the raw epoch, a parsed ISO string, and an unparseable
string. -/
theorem decodeDate_spec_witness :
    decodeDate (fun _ => none) (.arr [.num 24855, .num 12345, .num 0]) =
      .ok (some (24855 * 65536 + 12345)) ∧
    decodeDate (fun _ => none) (.num 1609459200) = .ok (some 1609459200) ∧
    decodeDate (fun _ => some 42) (.str "2021-01-01") = .ok (some 42) ∧
    decodeDate (fun _ => none) (.str "garbage") = .ok none :=
  ⟨decodeDate_spec.1 (fun _ => none) 24855 12345 [.num 0] (by decide) (by decide),
   decodeDate_spec.2.1 (fun _ => none) 1609459200 (by decide) (by decide)
     (by decide),
   decodeDate_spec.2.2.1 (fun _ => some 42) "2021-01-01" 42 (by decide) rfl,
   decodeDate_spec.2.2.2.1 (fun _ => none) "garbage" (by decide) rfl⟩

/-- C9 counterexample: the date decoder is not total — the date value
`[null, 0]` makes `high * 65536 + low` raise `TypeError`, so a message
with an unparseable date list is not produced with an absent date. -/
theorem decodeDate_claim_false :
    ¬ (∀ (iso : String → Option Int) (v : Jv),
        ∃ d, decodeDate iso v = .ok d) := by
  intro h
  obtain ⟨d, hd⟩ := h (fun _ => none) (.arr [.null, .num 0])
  rw [show decodeDate (fun _ => none) (.arr [.null, .num 0]) =
    .error .typeError from rfl] at hd
  exact Except.noConfusion hd

theorem fallbackLoop_all_fail (jload : String → Option Jv)
    (iso : String → Option Int) (lines : List String)
    (h : ∀ l ∈ lines, pyStripS l ≠ "" → pyStripS l ≠ "[" → pyStripS l ≠ "]" →
      pyStripS l ≠ "," → jload (pyRstripComma (pyStripS l)) = none) :
    fallbackLoop jload iso lines [] = .ok [] := by
  induction lines with
  | nil => rfl
  | cons l rest ih =>
    show (if pyStripS l = "" ∨ pyStripS l = "[" ∨ pyStripS l = "]" ∨
          pyStripS l = "," then
        fallbackLoop jload iso rest []
      else
        match jload (pyRstripComma (pyStripS l)) with
        | none => .ok []
        | some v =>
          match fromMuJson iso v with
          | .error e => .error e
          | .ok m => fallbackLoop jload iso rest ([] ++ [m])) = .ok []
    by_cases hc : pyStripS l = "" ∨ pyStripS l = "[" ∨ pyStripS l = "]" ∨
        pyStripS l = ","
    · rw [if_pos hc]
      exact ih (fun x hx => h x (List.mem_cons_of_mem _ hx))
    · rw [if_neg hc]
      push_neg at hc
      rw [h l (List.mem_cons_self _ _) hc.1 hc.2.1 hc.2.2.1 hc.2.2.2]

theorem decodeAll_ok (iso : String → Option Int) (l : List Jv)
    (h : ∀ v ∈ l, ∃ m, fromMuJson iso v = .ok m) :
    ∃ ms, decodeAll iso l = .ok ms := by
  induction l with
  | nil => exact ⟨[], rfl⟩
  | cons v rest ih =>
    obtain ⟨m, hm⟩ := h v (List.mem_cons_self _ _)
    obtain ⟨ms, hms⟩ := ih (fun x hx => h x (List.mem_cons_of_mem _ hx))
    refine ⟨m :: ms, ?_⟩
    show (match fromMuJson iso v with
      | Except.error e => Except.error e
      | Except.ok m2 =>
        match decodeAll iso rest with
        | Except.error e => Except.error e
        | Except.ok ms2 => Except.ok (m2 :: ms2)) = Except.ok (m :: ms)
    rw [hm, hms]

/-- C3 (amended): `find` surfaces an explicit error when the indexer
executable is missing or the call times out; every non-zero exit code —
whether or not stderr contains "no matches" — yields the empty list;
output that fails both the JSON-array parse and the newline-delimited
fallback parse yields the empty list; and when the output parses as an
array whose every record decodes, `find` returns normally — the only
other failures are decode errors raised by `from_mu_json` on a parsed
record (e.g. a malformed date list, claim C9). -/
theorem find_spec (jload : String → Option Jv) (iso : String → Option Int)
    (threads : Bool) :
    (find jload iso threads .missing =
      .error (.runtimeError "mu binary not found")) ∧
    (find jload iso threads .timeout =
      .error (.runtimeError "mu command timed out")) ∧
    (∀ (rc : Int) (out err : String), rc ≠ 0 →
      find jload iso threads (.completed rc out err) = .ok []) ∧
    (∀ (out err : String), jload (pyStripS out) = none →
      (∀ l ∈ (pyStripS out).splitOn "\n", pyStripS l ≠ "" → pyStripS l ≠ "[" →
        pyStripS l ≠ "]" → pyStripS l ≠ "," →
        jload (pyRstripComma (pyStripS l)) = none) →
      find jload iso threads (.completed 0 out err) = .ok []) ∧
    (∀ (out err : String) (l : List Jv), jload (pyStripS out) = some (.arr l) →
      (∀ v ∈ l, ∃ m, fromMuJson iso v = .ok m) →
      ∃ ms, find jload iso threads (.completed 0 out err) = .ok ms) := by
  refine ⟨rfl, rfl, ?_, ?_, ?_⟩
  · intro rc out err hrc
    show findPost jload iso threads rc out err = .ok []
    unfold findPost
    rw [if_pos hrc, ite_self]
  · intro out err hnone hlines
    show findPost jload iso threads 0 out err = .ok []
    unfold findPost
    rw [if_neg (by simp)]
    unfold findParse
    rw [hnone, fallbackLoop_all_fail jload iso _ hlines]
    simp
  · intro out err l harr hok
    obtain ⟨ms, hms⟩ := decodeAll_ok iso l hok
    refine ⟨if threads ∧ ms ≠ [] then computeThreadLevels ms else ms, ?_⟩
    show findPost jload iso threads 0 out err = _
    unfold findPost
    rw [if_neg (by simp)]
    unfold findParse
    rw [harr]
    show (match decodeAll iso l with
      | Except.error e => Except.error e
      | Except.ok msgs =>
        (Except.ok (if threads = true ∧ msgs ≠ [] then computeThreadLevels msgs
          else msgs) : Except PyErr (List EmailMessage))) = _
    rw [hms]

/-- Witness for C3's amended statement: a failing exit code with
unrelated stderr yields `[]`, and stdout that parses neither as JSON nor
line-by-line yields `[]`. -/
theorem find_spec_witness :
    find (fun _ => none) (fun _ => none) false (.completed 2 "x" "boom") =
      .ok [] ∧
    find (fun _ => none) (fun _ => none) false (.completed 0 "garbage" "") =
      .ok [] :=
  ⟨(find_spec (fun _ => none) (fun _ => none) false).2.2.1 2 "x" "boom"
     (by decide),
   (find_spec (fun _ => none) (fun _ => none) false).2.2.2.1 "garbage" ""
     rfl (fun l hl h1 h2 h3 h4 => rfl)⟩

/-- C3 counterexample: `find` can raise beyond a missing binary or a
timeout — with exit code 0 and stdout `[{":date": [null, 0]}]` (which
`json.loads` decodes to the given array), `from_mu_json` raises
`TypeError` out of `find`. -/
theorem find_claim_false :
    ¬ (∀ (jload : String → Option Jv) (iso : String → Option Int)
        (threads : Bool) (rc : Int) (out err : String),
        ∃ ms, find jload iso threads (.completed rc out err) = .ok ms) := by
  intro h
  obtain ⟨ms, hms⟩ := h
    (fun s => if s = "[\x7b\":date\": [null, 0]\x7d]" then
        some (.arr [.obj [(":date", .arr [.null, .num 0])]])
      else none)
    (fun _ => none) false 0 "[\x7b\":date\": [null, 0]\x7d]" ""
  rw [show find
      (fun s => if s = "[\x7b\":date\": [null, 0]\x7d]" then
        some (.arr [.obj [(":date", .arr [.null, .num 0])]])
      else none)
      (fun _ => none) false
      (.completed 0 "[\x7b\":date\": [null, 0]\x7d]" "") =
    .error .typeError from rfl] at hms
  exact Except.noConfusion hms

/-! ## Maildir moves and undo (`MuInterface.move` mu.py 762-803,
`MuInterface.undo_move` mu.py 805-829)

The filesystem and the mu database are modelled by an explicit state: the
set of existing files and directories, an environment-given set of
`denied` targets at which creating or renaming raises `OSError`, the move
history, and a log of the `_run_mu` argument lists (the `remove`/`add`
reconciliation calls; `_run_mu` itself is assumed to execute, as its own
failure modes are covered by `runMu`).  The root maildir is the value
`get_root_maildir` caches from `mu info`. -/

structure MuState where
  rootMaildir : String
  fs : List String
  dirs : List String
  denied : List String
  moveHistory : List (String × String)
  muCalls : List (List String)
  deriving DecidableEq, Repr

/-- `maildir.lstrip("/")`. -/
def lstripSlash (s : String) : String :=
  ⟨s.data.dropWhile (fun c => c = '/')⟩

/-- `Path(a) / b`. -/
def joinPath (a b : String) : String := a ++ "/" ++ b

/-- `Path(p).name`: the characters after the last `'/'` (the modelled
paths are normalised, slash-separated and have no trailing slash). -/
def baseName (p : String) : String :=
  ⟨(p.data.reverse.takeWhile (fun c => c ≠ '/')).reverse⟩

/-- `Path(p).parent`: the characters before the last `'/'`. -/
def parentDir (p : String) : String :=
  ⟨((p.data.reverse.dropWhile (fun c => c ≠ '/')).reverse).dropLast⟩

/-- Record one `_run_mu` invocation. -/
def logMu (s : MuState) (args : List String) : MuState :=
  { s with muCalls := s.muCalls ++ [args] }

/-- The target `cur`-tier directory of a move:
`Path(root) / maildir.lstrip("/") / "cur"`. -/
def moveTarget (s : MuState) (maildir : String) : String :=
  joinPath (joinPath s.rootMaildir (lstripSlash maildir)) "cur"

/-- The destination path of a move: `target_dir / path_obj.name`. -/
def moveNewPath (s : MuState) (path maildir : String) : String :=
  joinPath (moveTarget s maildir) (baseName path)

/-- `target_dir.mkdir(parents=True)` when the directory is missing. -/
def moveMkdir (s : MuState) (maildir : String) : MuState :=
  if moveTarget s maildir ∈ s.dirs then s
  else { s with dirs := moveTarget s maildir :: s.dirs }

/-- The state after the history push and the `mu remove` call — reached
even when the subsequent rename fails. -/
def movePrepared (s : MuState) (path maildir : String) : MuState :=
  logMu { moveMkdir s maildir with
    moveHistory := s.moveHistory ++ [(moveNewPath s path maildir, path)] }
    ["remove", path]

/-- `MuInterface.move`: bail out if the file is gone; create the target
`cur` tier (an `OSError` is caught to `None`); then, inside the `try`
block, push `(new_path, path)` onto the history, tell mu to forget the
old path, rename (an `OSError` is caught to `None`, leaving the already
pushed history entry and the already logged `remove` call behind), and
tell mu about the new path. -/
def move (s : MuState) (path maildir : String) : Option String × MuState :=
  if path ∉ s.fs then (none, s)
  else if moveTarget s maildir ∉ s.dirs ∧ moveTarget s maildir ∈ s.denied then
    (none, s)
  else if moveNewPath s path maildir ∈ s.denied then
    (none, movePrepared s path maildir)
  else
    (some (moveNewPath s path maildir),
     logMu { movePrepared s path maildir with
       fs := moveNewPath s path maildir ::
         (movePrepared s path maildir).fs.erase path }
       ["add", moveNewPath s path maildir])

/-- The pop performed by `undo_move` before any check. -/
def undoPop (s : MuState) : MuState :=
  { s with moveHistory := s.moveHistory.dropLast }

/-- `original.parent.mkdir(parents=True, exist_ok=True)`. -/
def undoMkdir (s : MuState) (orig : String) : MuState :=
  if parentDir orig ∈ s.dirs then s
  else { s with dirs := parentDir orig :: s.dirs }

/-- `MuInterface.undo_move`: an empty history fails; otherwise the last
`(current, original)` pair is popped, a vanished current path fails, the
original's parent directory is created (this `mkdir` is *outside* the
`try`, so its `OSError` propagates), and only the filesystem rename is
reversed — no mu `remove`/`add` call is issued. -/
def undoMove (s : MuState) : Except PyErr (Bool × MuState) :=
  match s.moveHistory.getLast? with
  | none => .ok (false, s)
  | some (cur, orig) =>
    if cur ∉ (undoPop s).fs then .ok (false, undoPop s)
    else if parentDir orig ∉ (undoPop s).dirs ∧
        parentDir orig ∈ (undoPop s).denied then
      .error .osError
    else if orig ∈ (undoPop s).denied then
      .ok (false, undoMkdir (undoPop s) orig)
    else
      .ok (true, { undoMkdir (undoPop s) orig with
        fs := orig :: (undoMkdir (undoPop s) orig).fs.erase cur })

/-- A sequence of `move` calls (the return values are discarded). -/
def applyMoves (s : MuState) : List (String × String) → MuState
  | [] => s
  | (path, maildir) :: rest => applyMoves (move s path maildir).2 rest

theorem movePrepared_fields (s : MuState) (path maildir : String) :
    (movePrepared s path maildir).fs = s.fs ∧
    (movePrepared s path maildir).moveHistory =
      s.moveHistory ++ [(moveNewPath s path maildir, path)] ∧
    (movePrepared s path maildir).denied = s.denied ∧
    (movePrepared s path maildir).rootMaildir = s.rootMaildir ∧
    (movePrepared s path maildir).muCalls = s.muCalls ++ [["remove", path]] ∧
    (∀ d ∈ s.dirs, d ∈ (movePrepared s path maildir).dirs) := by
  unfold movePrepared moveMkdir logMu
  split
  · exact ⟨rfl, rfl, rfl, rfl, rfl, fun d hd => hd⟩
  · exact ⟨rfl, rfl, rfl, rfl, rfl, fun d hd => List.mem_cons_of_mem _ hd⟩

/-- What a successful `move` did to the state. -/
theorem move_ok_spec (s : MuState) (path maildir newPath : String)
    (s2 : MuState) (h : move s path maildir = (some newPath, s2)) :
    newPath = moveNewPath s path maildir ∧
    path ∈ s.fs ∧ newPath ∉ s.denied ∧
    s2.fs = newPath :: s.fs.erase path ∧
    s2.moveHistory = s.moveHistory ++ [(newPath, path)] ∧
    s2.denied = s.denied ∧ s2.rootMaildir = s.rootMaildir ∧
    s2.muCalls = s.muCalls ++ [["remove", path], ["add", newPath]] ∧
    (∀ d ∈ s.dirs, d ∈ s2.dirs) := by
  obtain ⟨hfs, hhist, hden, hroot, hcalls, hdirs⟩ :=
    movePrepared_fields s path maildir
  unfold move at h
  split at h
  · simp at h
  · split at h
    · simp at h
    · split at h
      · simp at h
      · rename_i h1 h2 h3
        rw [Prod.mk.injEq, Option.some.injEq] at h
        obtain ⟨hnp, hs⟩ := h
        subst hnp
        subst hs
        push_neg at h1
        refine ⟨rfl, h1, h3, ?_, ?_, ?_, ?_, ?_, ?_⟩
        · show moveNewPath s path maildir ::
            (movePrepared s path maildir).fs.erase path = _
          rw [hfs]
        · show (movePrepared s path maildir).moveHistory = _
          rw [hhist]
        · exact hden
        · exact hroot
        · show (movePrepared s path maildir).muCalls ++
            [["add", moveNewPath s path maildir]] = _
          rw [hcalls, List.append_assoc]
          rfl
        · exact hdirs

/-- C4: `undo_move` on an empty history returns failure and changes
nothing; after one successful move of a file, `undo_move` restores the
file to its exact original path, returns success, and reverses only the
filesystem rename — the mu-call log is unchanged, i.e. no indexer
`remove`/`add` is issued. -/
theorem undoMove_spec :
    (∀ s : MuState, s.moveHistory = [] → undoMove s = .ok (false, s)) ∧
    (∀ (s : MuState) (path maildir newPath : String) (s2 : MuState),
      move s path maildir = (some newPath, s2) →
      path ∉ s.denied → parentDir path ∈ s.dirs →
      ∃ s3 : MuState, undoMove s2 = .ok (true, s3) ∧
        path ∈ s3.fs ∧ s3.fs.toFinset = s.fs.toFinset ∧
        s3.moveHistory = s.moveHistory ∧ s3.muCalls = s2.muCalls) := by
  constructor
  · intro s h
    unfold undoMove
    rw [h]
    rfl
  · intro s path maildir newPath s2 hmv hnd hpar
    obtain ⟨hnp, hpath, hnpd, hfs, hhist, hden, hroot, hcalls, hdirs⟩ :=
      move_ok_spec s path maildir newPath s2 hmv
    have hget : s2.moveHistory.getLast? = some (newPath, path) := by
      rw [hhist]
      exact List.getLast?_concat _
    have hpop : (undoPop s2).moveHistory = s.moveHistory := by
      show s2.moveHistory.dropLast = s.moveHistory
      rw [hhist]
      exact List.dropLast_concat
    have hcur : newPath ∈ (undoPop s2).fs := by
      show newPath ∈ s2.fs
      rw [hfs]
      exact List.mem_cons_self _ _
    have hpar2 : parentDir path ∈ (undoPop s2).dirs := hdirs _ hpar
    have hmk : undoMkdir (undoPop s2) path = undoPop s2 := by
      unfold undoMkdir
      rw [if_pos hpar2]
    refine ⟨{ undoPop s2 with
      fs := path :: (undoPop s2).fs.erase newPath }, ?_, ?_, ?_, ?_, ?_⟩
    · unfold undoMove
      rw [hget]
      show (if newPath ∉ (undoPop s2).fs then Except.ok (false, undoPop s2)
        else if parentDir path ∉ (undoPop s2).dirs ∧
            parentDir path ∈ (undoPop s2).denied then
          Except.error PyErr.osError
        else if path ∈ (undoPop s2).denied then
          Except.ok (false, undoMkdir (undoPop s2) path)
        else
          Except.ok (true, { undoMkdir (undoPop s2) path with
            fs := path :: (undoMkdir (undoPop s2) path).fs.erase newPath })) = _
      rw [if_neg (by simpa using hcur)]
      rw [if_neg (by rw [not_and]; intro hc; exact absurd hpar2 hc)]
      rw [if_neg (by show path ∉ (undoPop s2).denied
                     show path ∉ s2.denied
                     rw [hden]; exact hnd)]
      rw [hmk]
    · exact List.mem_cons_self _ _
    · show (path :: ((undoPop s2).fs.erase newPath)).toFinset = s.fs.toFinset
      have h1 : (undoPop s2).fs.erase newPath = s.fs.erase path := by
        show s2.fs.erase newPath = s.fs.erase path
        rw [hfs, List.erase_cons_head]
      rw [h1, List.toFinset_cons]
      ext x
      simp only [Finset.mem_insert, List.mem_toFinset]
      constructor
      · rintro (rfl | hx)
        · exact hpath
        · exact List.mem_of_mem_erase hx
      · intro hx
        by_cases hxp : x = path
        · exact Or.inl hxp
        · exact Or.inr ((List.mem_erase_of_ne hxp).mpr hx)
    · exact hpop
    · rfl

/-- Witness for C4: a concrete empty-history undo fails, and a concrete
archive move followed by `undo_move` restores the original path with no
further mu calls. -/
theorem undoMove_spec_witness :
    undoMove ⟨"/m", [], [], [], [], []⟩ = .ok (false, ⟨"/m", [], [], [], [], []⟩) ∧
    (∃ s3 : MuState,
      undoMove ⟨"/m", ["/m/B/cur/x"], ["/m/A/cur", "/m/B/cur"], [],
        [("/m/B/cur/x", "/m/A/cur/x")],
        [["remove", "/m/A/cur/x"], ["add", "/m/B/cur/x"]]⟩ = .ok (true, s3) ∧
      "/m/A/cur/x" ∈ s3.fs ∧
      s3.muCalls = [["remove", "/m/A/cur/x"], ["add", "/m/B/cur/x"]]) := by
  constructor
  · exact undoMove_spec.1 ⟨"/m", [], [], [], [], []⟩ rfl
  · have hmv : move ⟨"/m", ["/m/A/cur/x"], ["/m/A/cur", "/m/B/cur"], [], [], []⟩
        "/m/A/cur/x" "/B" =
        (some "/m/B/cur/x",
         ⟨"/m", ["/m/B/cur/x"], ["/m/A/cur", "/m/B/cur"], [],
          [("/m/B/cur/x", "/m/A/cur/x")],
          [["remove", "/m/A/cur/x"], ["add", "/m/B/cur/x"]]⟩) := by decide
    obtain ⟨s3, h1, h2, h3, h4, h5⟩ := undoMove_spec.2
      ⟨"/m", ["/m/A/cur/x"], ["/m/A/cur", "/m/B/cur"], [], [], []⟩
      "/m/A/cur/x" "/B" "/m/B/cur/x" _ hmv (by decide) (by decide)
    exact ⟨s3, h1, h2, by rw [h5]⟩

/-- C10: when the rename inside `move` fails after the `(newPath, path)`
pair was pushed, `move` returns failure with the stale pair left on the
stack (and the `mu remove` already issued); the next `undo_move` pops
exactly that stale pair, finds the recorded new path missing, and returns
failure with no filesystem change and no mu call. -/
theorem failed_move_undo_spec (s : MuState) (path maildir : String)
    (hpath : path ∈ s.fs)
    (htd : moveTarget s maildir ∈ s.dirs)
    (hdenied : moveNewPath s path maildir ∈ s.denied)
    (hgone : moveNewPath s path maildir ∉ s.fs) :
    move s path maildir = (none, movePrepared s path maildir) ∧
    (movePrepared s path maildir).fs = s.fs ∧
    (movePrepared s path maildir).moveHistory =
      s.moveHistory ++ [(moveNewPath s path maildir, path)] ∧
    (movePrepared s path maildir).muCalls = s.muCalls ++ [["remove", path]] ∧
    undoMove (movePrepared s path maildir) =
      .ok (false, undoPop (movePrepared s path maildir)) ∧
    (undoPop (movePrepared s path maildir)).fs = s.fs ∧
    (undoPop (movePrepared s path maildir)).moveHistory = s.moveHistory ∧
    (undoPop (movePrepared s path maildir)).muCalls =
      s.muCalls ++ [["remove", path]] := by
  obtain ⟨hfs, hhist, hden, hroot, hcalls, hdirs⟩ :=
    movePrepared_fields s path maildir
  have hmove : move s path maildir = (none, movePrepared s path maildir) := by
    unfold move
    rw [if_neg (by simpa using hpath)]
    rw [if_neg (by rw [not_and]; intro hc; exact absurd htd hc)]
    rw [if_pos hdenied]
  have hget : (movePrepared s path maildir).moveHistory.getLast? =
      some (moveNewPath s path maildir, path) := by
    rw [hhist]
    exact List.getLast?_concat _
  have hpop : (undoPop (movePrepared s path maildir)).moveHistory =
      s.moveHistory := by
    show (movePrepared s path maildir).moveHistory.dropLast = s.moveHistory
    rw [hhist]
    exact List.dropLast_concat
  have hundo : undoMove (movePrepared s path maildir) =
      .ok (false, undoPop (movePrepared s path maildir)) := by
    unfold undoMove
    rw [hget]
    show (if moveNewPath s path maildir ∉
          (undoPop (movePrepared s path maildir)).fs then
        Except.ok (false, undoPop (movePrepared s path maildir))
      else if parentDir path ∉ (undoPop (movePrepared s path maildir)).dirs ∧
          parentDir path ∈ (undoPop (movePrepared s path maildir)).denied then
        Except.error PyErr.osError
      else if path ∈ (undoPop (movePrepared s path maildir)).denied then
        Except.ok (false, undoMkdir (undoPop (movePrepared s path maildir)) path)
      else
        Except.ok (true,
          { undoMkdir (undoPop (movePrepared s path maildir)) path with
            fs := path ::
              (undoMkdir (undoPop (movePrepared s path maildir)) path).fs.erase
                (moveNewPath s path maildir) })) = _
    rw [if_pos (by show moveNewPath s path maildir ∉ (movePrepared s path maildir).fs
                   rw [hfs]; exact hgone)]
  exact ⟨hmove, hfs, hhist, hcalls, hundo, hfs, hpop, hcalls⟩

/-- Witness for C10 at a concrete denied rename target. -/
theorem failed_move_undo_spec_witness :
    "/m/A/cur/x" ∈ (⟨"/m", ["/m/A/cur/x"], ["/m/A/cur", "/m/B/cur"],
      ["/m/B/cur/x"], [], []⟩ : MuState).fs ∧
    move ⟨"/m", ["/m/A/cur/x"], ["/m/A/cur", "/m/B/cur"], ["/m/B/cur/x"], [], []⟩
        "/m/A/cur/x" "/B" =
      (none, movePrepared ⟨"/m", ["/m/A/cur/x"], ["/m/A/cur", "/m/B/cur"],
        ["/m/B/cur/x"], [], []⟩ "/m/A/cur/x" "/B") ∧
    undoMove (movePrepared ⟨"/m", ["/m/A/cur/x"], ["/m/A/cur", "/m/B/cur"],
        ["/m/B/cur/x"], [], []⟩ "/m/A/cur/x" "/B") =
      .ok (false, undoPop (movePrepared ⟨"/m", ["/m/A/cur/x"],
        ["/m/A/cur", "/m/B/cur"], ["/m/B/cur/x"], [], []⟩ "/m/A/cur/x" "/B")) := by
  have h := failed_move_undo_spec
    ⟨"/m", ["/m/A/cur/x"], ["/m/A/cur", "/m/B/cur"], ["/m/B/cur/x"], [], []⟩
    "/m/A/cur/x" "/B" (by decide) (by decide) (by decide) (by decide)
  exact ⟨by decide, h.1, h.2.2.2.2.1⟩

/-- Moving a file into the maildir it already lives in succeeds (a rename
to itself) and appends one history entry; only the history and the mu-call
log change. -/
theorem moveSame (hist : List (String × String)) (calls : List (List String)) :
    move ⟨"/m", ["/m/A/cur/x"], ["/m/A/cur"], [], hist, calls⟩
        "/m/A/cur/x" "/A" =
      (some "/m/A/cur/x",
       ⟨"/m", ["/m/A/cur/x"], ["/m/A/cur"], [],
        hist ++ [("/m/A/cur/x", "/m/A/cur/x")],
        (calls ++ [["remove", "/m/A/cur/x"]]) ++ [["add", "/m/A/cur/x"]]⟩) := rfl

theorem applyMoves_replicate (k : Nat) :
    ∀ (hist : List (String × String)) (calls : List (List String)),
    (applyMoves ⟨"/m", ["/m/A/cur/x"], ["/m/A/cur"], [], hist, calls⟩
      (List.replicate k ("/m/A/cur/x", "/A"))).moveHistory =
      hist ++ List.replicate k ("/m/A/cur/x", "/m/A/cur/x") := by
  induction k with
  | zero => intro hist calls; simp [applyMoves]
  | succ k ih =>
    intro hist calls
    rw [List.replicate_succ]
    show (applyMoves
      (move ⟨"/m", ["/m/A/cur/x"], ["/m/A/cur"], [], hist, calls⟩
        "/m/A/cur/x" "/A").2
      (List.replicate k ("/m/A/cur/x", "/A"))).moveHistory = _
    rw [moveSame]
    show (applyMoves ⟨"/m", ["/m/A/cur/x"], ["/m/A/cur"], [],
      hist ++ [("/m/A/cur/x", "/m/A/cur/x")],
      (calls ++ [["remove", "/m/A/cur/x"]]) ++ [["add", "/m/A/cur/x"]]⟩
      (List.replicate k ("/m/A/cur/x", "/A"))).moveHistory = _
    rw [ih]
    simp [List.replicate_succ]

/-- C5 counterexample: no fixed capacity bounds the move history — for
every candidate capacity, enough repeated moves exceed it. -/
theorem moveHistory_bounded_claim_false :
    ¬ (∃ cap : Nat, ∀ (s : MuState) (ops : List (String × String)),
        s.moveHistory = [] →
        (applyMoves s ops).moveHistory.length ≤ cap) := by
  rintro ⟨cap, hcap⟩
  have h := hcap ⟨"/m", ["/m/A/cur/x"], ["/m/A/cur"], [], [], []⟩
    (List.replicate (cap + 1) ("/m/A/cur/x", "/A")) rfl
  rw [applyMoves_replicate (cap + 1) [] []] at h
  simp at h

/-- C5 (amended): the undo stack is unbounded — every successful move
appends exactly one `(newPath, oldPath)` entry and no capacity is
enforced: `k` successful moves leave `k` entries. -/
theorem moveHistory_unbounded_amended :
    (∀ (s : MuState) (path maildir newPath : String) (s2 : MuState),
      move s path maildir = (some newPath, s2) →
      s2.moveHistory = s.moveHistory ++ [(newPath, path)]) ∧
    (∀ k : Nat,
      (applyMoves ⟨"/m", ["/m/A/cur/x"], ["/m/A/cur"], [], [], []⟩
        (List.replicate k ("/m/A/cur/x", "/A"))).moveHistory.length = k) := by
  constructor
  · intro s path maildir newPath s2 h
    exact (move_ok_spec s path maildir newPath s2 h).2.2.2.2.1
  · intro k
    rw [applyMoves_replicate k [] []]
    simp

/-- Witness for C5's amended statement: one concrete successful move
appends its pair, and three repeated moves leave three entries. -/
theorem moveHistory_unbounded_amended_witness :
    (move ⟨"/m", ["/m/A/cur/x"], ["/m/A/cur"], [], [], []⟩
      "/m/A/cur/x" "/A").2.moveHistory = [("/m/A/cur/x", "/m/A/cur/x")] ∧
    (applyMoves ⟨"/m", ["/m/A/cur/x"], ["/m/A/cur"], [], [], []⟩
      (List.replicate 3 ("/m/A/cur/x", "/A"))).moveHistory.length = 3 := by
  constructor
  · have h := moveHistory_unbounded_amended.1
      ⟨"/m", ["/m/A/cur/x"], ["/m/A/cur"], [], [], []⟩ "/m/A/cur/x" "/A"
      "/m/A/cur/x"
      ⟨"/m", ["/m/A/cur/x"], ["/m/A/cur"], [],
       [("/m/A/cur/x", "/m/A/cur/x")],
       ([] ++ [["remove", "/m/A/cur/x"]]) ++ [["add", "/m/A/cur/x"]]⟩
      (moveSame [] [])
    rw [moveSame [] []]
    simpa using h
  · exact moveHistory_unbounded_amended.2 3

/-! ## Attachment extraction and forwarding
(`MuInterface.extract_attachment` mu.py 956-1017,
`ComposeWidget._init_forward` compose.py 943-961)

The temporary target directory is modelled as a list of files in
iteration order, with the names relative to the fixed directory; the
external `mu extract --parts N --overwrite` run is the environment's
`ExtractEffect` (the filename and content mu writes for that part, the
exit code, and the command's stdout). -/

structure FileEnt where
  name : String
  content : String
  mtime : Nat
  deriving DecidableEq, Repr

/-- What `mu extract --overwrite` does to the target directory: the
extracted file replaces an existing file of the same name in place, or is
appended. -/
def muExtractWrite (d : List FileEnt) (name content : String) (t : Nat) :
    List FileEnt :=
  if d.any (fun f => f.name = name) then
    d.map (fun f => if f.name = name then ⟨name, content, t⟩ else f)
  else d ++ [⟨name, content, t⟩]

/-- The environment's behaviour for one `mu extract` invocation. -/
structure ExtractEffect where
  name : String
  content : String
  rc : Int
  stdout : String

/-- `line.startswith('Wrote ')`. -/
def startsWithWrote (l : String) : Bool :=
  "Wrote ".data.isPrefixOf l.data

/-- The stdout scan of `extract_attachment` (mu.py 1003-1010): the first
`Wrote <path>` line whose path exists. -/
def wroteLines (names : List String) : List String → Option String
  | [] => none
  | l :: rest =>
    if startsWithWrote l then
      if pyStripS ⟨l.data.drop 6⟩ ∈ names then some (pyStripS ⟨l.data.drop 6⟩)
      else wroteLines names rest
    else wroteLines names rest

/-- The most recently modified file (Python's stable descending sort by
mtime followed by taking the head: the first entry among the maximal
mtimes). -/
def mostRecent : List FileEnt → Option String
  | [] => none
  | f :: rest =>
    some ((rest.foldl (fun b g => if g.mtime > b.mtime then g else b) f).name)

/-- `MuInterface.extract_attachment` around one external `mu extract`
run: diff the directory's file set before/after; if nothing is new, a
single candidate wins; otherwise parse the command's `Wrote` output;
finally fall back to the most recently modified file. -/
def extract_attachment (d : List FileEnt) (eff : ExtractEffect) (t : Nat) :
    List FileEnt × Option String :=
  let existing := d.map (·.name)
  if eff.rc ≠ 0 then (d, none)
  else
    let d2 := muExtractWrite d eff.name eff.content t
    match d2.find? (fun f => decide (f.name ∉ existing)) with
    | some f => (d2, some f.name)
    | none =>
      if d2.length = 1 then
        match d2 with
        | f :: _ => (d2, some f.name)
        | [] => (d2, none)
      else
        match wroteLines (d2.map (·.name))
            ((pyStripS eff.stdout).splitOn "\n") with
        | some p => (d2, some p)
        | none =>
          match mostRecent d2 with
          | some p => (d2, some p)
          | none => (d2, none)

/-- The attachment-forwarding loop of `_init_forward` (compose.py
943-961): falsy part indexes are skipped, each part is extracted into the
same temporary directory, extraction failures are ignored, and a path
already collected is not appended again. -/
def collectForwardAttachments (effects : Int → ExtractEffect) :
    List (Option Int) → List FileEnt → List String → Nat →
      List FileEnt × List String
  | [], d, extracted, _ => (d, extracted)
  | pi :: rest, d, extracted, t =>
    match pi with
    | none => collectForwardAttachments effects rest d extracted t
    | some i =>
      if i = 0 then collectForwardAttachments effects rest d extracted t
      else
        match extract_attachment d (effects i) t with
        | (d2, none) => collectForwardAttachments effects rest d2 extracted (t + 1)
        | (d2, some p) =>
          if p ∈ extracted then
            collectForwardAttachments effects rest d2 extracted (t + 1)
          else
            collectForwardAttachments effects rest d2 (extracted ++ [p]) (t + 1)

/-- C1 evaluated at the failing input: forwarding a message with two
attachments that both extract to `file.txt` leaves exactly one file on
disk, holding the second part's content (the first is overwritten), and
collects the single path once — the second attachment is silently
dropped, where the claim (and the repository's own test
`test_forward_attachments_keep_duplicate_names`) expects `file.txt` and
`file (2).txt` with both contents preserved. -/
theorem forward_duplicate_names_lost :
    collectForwardAttachments
      (fun i => ⟨"file.txt", if i = 1 then "part 1" else "part 2", 0, ""⟩)
      [some 1, some 2] [] [] 0 =
      ([⟨"file.txt", "part 2", 1⟩], ["file.txt"]) ∧
    "file (2).txt" ∉ (collectForwardAttachments
      (fun i => ⟨"file.txt", if i = 1 then "part 1" else "part 2", 0, ""⟩)
      [some 1, some 2] [] [] 0).1.map FileEnt.name := by
  constructor
  · rfl
  · decide



end Bor
